import Mathlib

/-!
# spdlog-study: bounded task queue, worker pool and logger fan-out

A shallow embedding of `7-module/include/ThreadPool.h` and of the logger
classes of `7-module/4.cpp`.

* The task queue `std::queue<std::function<void()>>` is a `List`, head = front.
* Every critical section (the code run while `queue_mutex` is held) is one
  atomic function on the pool state; a thread that sleeps in
  `condition.wait` gives the lock back, so the code before and after the wait
  are two separate steps.
* `size_t` quantities are `Nat`; no arithmetic is done on them except `>=`/`<`.
* Sink objects live in a heap (a `List base_sink`); a `std::shared_ptr<base_sink>`
  is an `Option Nat`, the position of the object it points to or `none` for the
  null pointer, so one sink can be registered several times and be shared.
-/

namespace SpdlogStudy

/-! ## ThreadPool.h -/

/-- Async overflow policy (ThreadPool.h, lines 15-20). -/
inductive async_overflow_policy where
  | block
  | overrun_oldest
  | discard_new
  deriving DecidableEq, Repr

/-- The data members of `class ThreadPool` that the queue logic reads or writes
(ThreadPool.h, lines 33-42). The worker threads are not data here: each
iteration of a worker is a `worker_step`. -/
structure ThreadPool (α : Type) where
  tasks : List α
  stop : Bool
  maxQueueSize : Nat
  overflow_policy : async_overflow_policy
  deriving DecidableEq, Repr

/-- How a call of `ThreadPool::enqueue` leaves its critical section. -/
inductive EnqueueOutcome where
  /-- Line 89: `throw std::runtime_error("enqueue on stopped ThreadPool")`. -/
  | thrown
  /-- Line 104: `return std::future<return_type>()`, the empty future. -/
  | dropped
  /-- Lines 108-111: `tasks.emplace(...)` ran and `res` is returned. -/
  | accepted
  /-- The caller sleeps in `condition.wait` of line 96. -/
  | suspended
  /-- Line 100 reached with an empty `std::queue`: `tasks.pop()` is undefined behaviour. -/
  | undefined
  deriving DecidableEq, Repr

/-- What one iteration of the worker loop does inside its critical section. -/
inductive WorkerOutcome (α : Type) where
  /-- Line 62: `return`, the worker thread ends. -/
  | terminal
  /-- Lines 63-64: the front task was moved out and popped. -/
  | got (task : α)
  /-- The wait predicate of line 60 is false: the worker sleeps. -/
  | idle
  deriving DecidableEq, Repr

/-- Constructor `ThreadPool::ThreadPool` (lines 46-47): the member initialisers. -/
def ThreadPool.init {α : Type} (maxQueueSize : Nat) (policy : async_overflow_policy) :
    ThreadPool α :=
  { tasks := [], stop := false, maxQueueSize := maxQueueSize, overflow_policy := policy }

/-- Model of `std::queue::pop`: removes the front element; the precondition is a
non-empty queue, `none` stands for the undefined behaviour otherwise. -/
def queue_pop {α : Type} : List α → Option (List α)
  | [] => none
  | _ :: rest => some rest

/-- `ThreadPool::enqueue`, lines 85-111, up to the point where the call returns,
throws or goes to sleep in the wait of line 96. -/
def ThreadPool.enqueue {α : Type} (tp : ThreadPool α) (task : α) :
    EnqueueOutcome × ThreadPool α :=
  if tp.stop then
    (EnqueueOutcome.thrown, tp)
  else if tp.tasks.length ≥ tp.maxQueueSize then
    match tp.overflow_policy with
    | async_overflow_policy.block => (EnqueueOutcome.suspended, tp)
    | async_overflow_policy.overrun_oldest =>
      match queue_pop tp.tasks with
      | none => (EnqueueOutcome.undefined, tp)
      | some q => (EnqueueOutcome.accepted, { tp with tasks := q ++ [task] })
    | async_overflow_policy.discard_new => (EnqueueOutcome.dropped, tp)
  else
    (EnqueueOutcome.accepted, { tp with tasks := tp.tasks ++ [task] })

/-- The rest of `ThreadPool::enqueue` for a caller that sleeps in the wait of
line 96: when it is woken it holds the lock again and evaluates the predicate
`tasks.size() < maxQueueSize`; if that holds it leaves the `switch` and runs
`tasks.emplace` (line 108), otherwise it sleeps again. The flag `stop` is not
read on this path. -/
def ThreadPool.enqueue_resume {α : Type} (tp : ThreadPool α) (task : α) :
    EnqueueOutcome × ThreadPool α :=
  if tp.tasks.length < tp.maxQueueSize then
    (EnqueueOutcome.accepted, { tp with tasks := tp.tasks ++ [task] })
  else
    (EnqueueOutcome.suspended, tp)

/-- One iteration of the worker loop, lines 57-65: wait until
`stop || !tasks.empty()`, return if `stop && tasks.empty()`, otherwise take
the front task. -/
def ThreadPool.worker_step {α : Type} (tp : ThreadPool α) : WorkerOutcome α × ThreadPool α :=
  match tp.tasks with
  | [] => if tp.stop then (WorkerOutcome.terminal, tp) else (WorkerOutcome.idle, tp)
  | task :: rest => (WorkerOutcome.got task, { tp with tasks := rest })

/-- Destructor `ThreadPool::~ThreadPool`, lines 117-120: `stop = true` under the lock. -/
def ThreadPool.set_stop {α : Type} (tp : ThreadPool α) : ThreadPool α :=
  { tp with stop := true }

/-! ### Interleavings

A pool together with the threads around it: producers asleep in the wait of
`enqueue`, and three logs kept for the statements below. -/

/-- One scheduling step. -/
inductive Op (α : Type) where
  /-- A producer calls `enqueue(x)`. -/
  | submit (x : α)
  /-- The `i`-th sleeping producer is woken and evaluates its wait predicate. -/
  | wake (i : Nat)
  /-- A worker runs one iteration of its loop. -/
  | take
  /-- The destructor sets `stop`. -/
  | set_stop
  deriving DecidableEq, Repr

/-- The pool, the producers asleep in `condition.wait` (with the task each one
carries), and the history: tasks for which `tasks.emplace` ran, tasks removed by
workers, the outcome handed to each finished `enqueue` call, and how many
workers have returned. -/
structure Sys (α : Type) where
  pool : ThreadPool α
  waiting : List α
  accepted : List α
  delivered : List α
  returned : List (α × EnqueueOutcome)
  exited : Nat
  deriving DecidableEq, Repr

/-- A freshly constructed pool with no history. -/
def Sys.init {α : Type} (maxQueueSize : Nat) (policy : async_overflow_policy) : Sys α :=
  { pool := ThreadPool.init maxQueueSize policy, waiting := [], accepted := [],
    delivered := [], returned := [], exited := 0 }

/-- Effect of one scheduling step; `none` when the step runs into undefined
behaviour. -/
def Sys.step {α : Type} (s : Sys α) : Op α → Option (Sys α)
  | Op.submit x =>
    match s.pool.enqueue x with
    | (EnqueueOutcome.undefined, _) => none
    | (EnqueueOutcome.suspended, p) => some { s with pool := p, waiting := s.waiting ++ [x] }
    | (EnqueueOutcome.accepted, p) =>
      some { s with pool := p, accepted := s.accepted ++ [x],
                    returned := s.returned ++ [(x, EnqueueOutcome.accepted)] }
    | (r, p) => some { s with pool := p, returned := s.returned ++ [(x, r)] }
  | Op.wake i =>
    match s.waiting.get? i with
    | none => some s
    | some x =>
      match s.pool.enqueue_resume x with
      | (EnqueueOutcome.accepted, p) =>
        some { s with pool := p, waiting := s.waiting.eraseIdx i,
                      accepted := s.accepted ++ [x],
                      returned := s.returned ++ [(x, EnqueueOutcome.accepted)] }
      | (_, _) => some s
  | Op.take =>
    match s.pool.worker_step with
    | (WorkerOutcome.terminal, p) => some { s with pool := p, exited := s.exited + 1 }
    | (WorkerOutcome.got t, p) => some { s with pool := p, delivered := s.delivered ++ [t] }
    | (WorkerOutcome.idle, _) => some s
  | Op.set_stop => some { s with pool := s.pool.set_stop }

/-- Runs a schedule from left to right. -/
def Sys.run {α : Type} (s : Sys α) : List (Op α) → Option (Sys α)
  | [] => some s
  | op :: ops => (s.step op).bind (fun s1 => Sys.run s1 ops)

/-! ## 4.cpp: sinks -/

/-- The members of `class file_helper` (lines 56-57): the strings put on
`file_stream_` so far, and the flag `is_open_`. -/
structure file_helper where
  file_stream_ : List String
  is_open_ : Bool
  deriving DecidableEq, Repr

/-- Method `file_helper::write`, lines 30-35. -/
def file_helper.write (h : file_helper) (msg : String) : Except String file_helper :=
  if !h.is_open_ then
    Except.error "文件未打开"
  else
    Except.ok { h with file_stream_ := h.file_stream_ ++ [msg] }

/-- A C stream handed to `ansicolor_sink` as `FILE*`: what was printed on it, and
whether a write on it succeeds (a stream opened for reading or already closed
does not take writes). -/
structure FILE where
  printed : List String
  writable : Bool
  deriving DecidableEq, Repr

/-- Library call `fmt::print(file_, "...", msg)` of line 73: prints `msg` on the
stream, and throws `std::system_error` ("cannot write to file") when the
write fails. -/
def fmt_print (f : FILE) (msg : String) : Except String FILE :=
  if f.writable then
    Except.ok { f with printed := f.printed ++ [msg] }
  else
    Except.error "cannot write to file"

/-- The implementations of the abstract `class base_sink` in 4.cpp:
`ansicolor_sink` (lines 67-86) and `file_sink` (lines 88-111), with their data
members. -/
inductive base_sink where
  | ansicolor_sink (file_ : FILE)
  | file_sink (filename_ : String) (file_helper_ : file_helper)
  deriving DecidableEq, Repr

/-- Virtual method `base_sink::log`: `ansicolor_sink::log` (lines 71-74) and
`file_sink::log` (lines 94-97). An exception leaves the sink as it was. -/
def base_sink.log : base_sink → String → Except String base_sink
  | base_sink.ansicolor_sink f, msg =>
    match fmt_print f msg with
    | Except.ok f1 => Except.ok (base_sink.ansicolor_sink f1)
    | Except.error e => Except.error e
  | base_sink.file_sink name h, msg =>
    match h.write msg with
    | Except.ok h1 => Except.ok (base_sink.file_sink name h1)
    | Except.error e => Except.error e

/-- Observation: everything a sink has put on its target, oldest first. -/
def base_sink.written : base_sink → List String
  | base_sink.ansicolor_sink f => f.printed
  | base_sink.file_sink _ h => h.file_stream_

/-- Observation: whether the target of the sink takes a write. -/
def base_sink.accepts : base_sink → Bool
  | base_sink.ansicolor_sink f => f.writable
  | base_sink.file_sink _ h => h.is_open_

/-! ## 4.cpp: Logger -/

/-- Enumeration `Logger::LogLevel`, lines 115-119. -/
inductive LogLevel where
  | INFO
  | WARNING
  | ERROR
  deriving DecidableEq, Repr

/-- The integer value of an enumerator; `>=` on `LogLevel` compares these. -/
def LogLevel.toNat : LogLevel → Nat
  | LogLevel.INFO => 0
  | LogLevel.WARNING => 1
  | LogLevel.ERROR => 2

/-- Method `Logger::toString`, lines 150-157. -/
def LogLevel.toString : LogLevel → String
  | LogLevel.INFO => "INFO"
  | LogLevel.WARNING => "WARNING"
  | LogLevel.ERROR => "ERROR"

/-- The library functions the logger calls: `std::ctime` (of the value of
`std::time(nullptr)`) and `fmt::format(format, args...)`. -/
structure Env where
  ctime : Nat → String
  fmt_format : String → List String → String

/-- Method `std::string::pop_back`. -/
def pop_back (s : String) : String :=
  String.mk s.data.dropLast

/-- Method `Logger::currentDateTime`, lines 159-164; `now` is what
`std::time(nullptr)` returns when the method runs. -/
def currentDateTime (env : Env) (now : Nat) : String :=
  pop_back (env.ctime now)

/-- The expression of lines 133 and 192: the format string with its three
fields filled in, read at clock value `now`. -/
def log_entry (env : Env) (now : Nat) (level : LogLevel) (format : String)
    (args : List String) : String :=
  "[" ++ currentDateTime env now ++ "] [" ++ level.toString ++ "] "
    ++ env.fmt_format format args ++ "\n"
/-- Specification helper: the sink with `lines` added at the end of what it has
put on its target, everything else as it was. -/
def base_sink.with_output : base_sink → List String → base_sink
  | base_sink.ansicolor_sink f, lines =>
    base_sink.ansicolor_sink { f with printed := f.printed ++ lines }
  | base_sink.file_sink name h, lines =>
    base_sink.file_sink name { h with file_stream_ := h.file_stream_ ++ lines }

/-- The object a `std::shared_ptr<base_sink>` points to. The sink objects that
are alive form the `heap`; `none` is the null pointer and `some j` points to
the sink at position `j` of the heap, so two equal pointers share one sink.
The result is `none` when the pointer points to no sink. -/
def deref (heap : List base_sink) : Option Nat → Option (Nat × base_sink)
  | none => none
  | some j =>
    match heap[j]? with
    | some sink => some (j, sink)
    | none => none

/-- Whether a pointer points to a sink whose target takes writes; `false` for a
pointer that points to no sink. -/
def points_to_accepting (heap : List base_sink) (p : Option Nat) : Bool :=
  match deref heap p with
  | some (_, sink) => sink.accepts
  | none => false

/-- The data members of `class Logger` (lines 147-149) without the mutexes:
`sinks_` is the vector of shared pointers to sinks, in registration order. -/
structure Logger where
  sinks_ : List (Option Nat)
  level_ : LogLevel
  deriving DecidableEq, Repr

/-- How the loop of `write_to_sinks` ends. -/
inductive LoopEnd where
  /-- The loop ran to its end and the method returns. -/
  | returned
  /-- An exception thrown by `sink->log` left the loop. -/
  | thrown (e : String)
  /-- The loop called `sink->log` through a pointer that points to no sink
  (a null pointer): undefined behaviour. -/
  | undefined
  deriving DecidableEq, Repr

/-- What a run of the loop of `write_to_sinks` leaves behind: the sink objects,
the positions in `sinks_` at which `log` was called (in call order), and how
the loop ended. -/
structure Delivery where
  heap : List base_sink
  calls : List Nat
  ending : LoopEnd
  deriving DecidableEq, Repr

/-- The loop of lines 168-172 from position `i` of `sinks_` on: each iteration
tests `level >= level_` and then calls `sink->log(log_entry)` on the object the
pointer points to; an exception thrown by that call leaves the loop. -/
def write_loop (level_ level : LogLevel) (entry : String) :
    Nat → List (Option Nat) → List base_sink → Delivery
  | _, [], heap => { heap := heap, calls := [], ending := LoopEnd.returned }
  | i, sink :: rest, heap =>
    if level.toNat ≥ level_.toNat then
      match deref heap sink with
      | none => { heap := heap, calls := [], ending := LoopEnd.undefined }
      | some (j, obj) =>
        match obj.log entry with
        | Except.error e => { heap := heap, calls := [i], ending := LoopEnd.thrown e }
        | Except.ok obj1 =>
          let d := write_loop level_ level entry (i + 1) rest (heap.set j obj1)
          { heap := d.heap, calls := i :: d.calls, ending := d.ending }
    else
      write_loop level_ level entry (i + 1) rest heap

/-- Specification: `after` is the heap `before` in which the sink at every
position `j` has got `count j` copies of `entry` as its new output and is
unchanged otherwise. -/
def heap_gains (before after : List base_sink) (count : Nat → Nat) (entry : String) : Prop :=
  after.length = before.length ∧
  ∀ (j : Nat) (sink : base_sink), before[j]? = some sink →
    after[j]? = some (sink.with_output (List.replicate (count j) entry))

/-- Constructor `Logger::Logger()`, line 120, with the member initialisers of
lines 147-149. -/
def Logger.init : Logger :=
  { sinks_ := [], level_ := LogLevel.INFO }

/-- Method `Logger::add_sink`, lines 125-128. -/
def Logger.add_sink (lg : Logger) (sink : Option Nat) : Logger :=
  { lg with sinks_ := lg.sinks_ ++ [sink] }

/-- Method `Logger::set_level`, lines 137-139. -/
def Logger.set_level (lg : Logger) (log_level : LogLevel) : Logger :=
  { lg with level_ := log_level }

/-- Method `Logger::level`, lines 141-143. -/
def Logger.level (lg : Logger) : LogLevel :=
  lg.level_

/-- Method `Logger::write_to_sinks`, lines 166-173, run on the sink objects of
`heap`. -/
def Logger.write_to_sinks (lg : Logger) (heap : List base_sink) (entry : String)
    (level : LogLevel) : Delivery :=
  write_loop lg.level_ level entry 0 lg.sinks_ heap

/-- Method `Logger::log`, lines 130-135, called when the clock reads `now`. -/
def Logger.log (env : Env) (now : Nat) (lg : Logger) (heap : List base_sink)
    (level : LogLevel) (format : String) (args : List String) : Delivery :=
  lg.write_to_sinks heap (log_entry env now level format args) level

/-! ## 4.cpp: AsyncLogger -/

/-- The captures of the lambda of lines 190-194 (besides `this`): `level`,
`format` and `args...`. -/
structure LogTask where
  level : LogLevel
  format : String
  args : List String
  deriving DecidableEq, Repr

/-- The data members of `class AsyncLogger`: those of `Logger` and `log_pool`. -/
structure AsyncLogger where
  sinks_ : List (Option Nat)
  level_ : LogLevel
  log_pool : ThreadPool LogTask
  deriving DecidableEq, Repr

/-- The `Logger` base object of an `AsyncLogger`. -/
def AsyncLogger.toLogger (a : AsyncLogger) : Logger :=
  { sinks_ := a.sinks_, level_ := a.level_ }

/-- Constructor `AsyncLogger::AsyncLogger`, lines 178-179. -/
def AsyncLogger.init : AsyncLogger :=
  { sinks_ := [], level_ := LogLevel.INFO,
    log_pool := ThreadPool.init 1000 async_overflow_policy.block }

/-- Method `AsyncLogger::log`, lines 188-195, called when the clock reads `now`:
the lambda is built from `this, level, format, args...` and handed to
`log_pool.enqueue`; the body of the method reads neither the clock nor
`level_`, and touches no sink. -/
def AsyncLogger.log (_now : Nat) (a : AsyncLogger) (level : LogLevel) (format : String)
    (args : List String) : EnqueueOutcome × AsyncLogger :=
  let r := a.log_pool.enqueue { level := level, format := format, args := args }
  (r.1, { a with log_pool := r.2 })

/-- The body of the queued lambda, lines 191-193, run when the clock reads `now`. -/
def LogTask.run (env : Env) (now : Nat) (lg : Logger) (heap : List base_sink) (t : LogTask) :
    Delivery :=
  lg.write_to_sinks heap (log_entry env now t.level t.format t.args) t.level

/-- One iteration of a pool worker on the logger (ThreadPool.h lines 57-67) when
the clock reads `now`: take the front task and call it. The task is a
`std::packaged_task`, which keeps an exception of its body in the shared state
of the future; the worker goes on either way. Returns the delivery made, if a
task was run. -/
def AsyncLogger.worker_iteration (env : Env) (now : Nat) (heap : List base_sink)
    (a : AsyncLogger) : Option Delivery × AsyncLogger :=
  match a.log_pool.worker_step with
  | (WorkerOutcome.got t, p) =>
    (some (t.run env now a.toLogger heap), { a with log_pool := p })
  | (_, p) => (none, { a with log_pool := p })

/-- Method `AsyncLogger::shutdown`, lines 185-186: the body is empty. -/
def AsyncLogger.shutdown (a : AsyncLogger) : AsyncLogger :=
  a

/-- Method `Logger::set_level` as inherited by `AsyncLogger`. -/
def AsyncLogger.set_level (a : AsyncLogger) (log_level : LogLevel) : AsyncLogger :=
  { a with level_ := log_level }

/-- Method `Logger::add_sink` as inherited by `AsyncLogger`. -/
def AsyncLogger.add_sink (a : AsyncLogger) (sink : Option Nat) : AsyncLogger :=
  { a with sinks_ := a.sinks_ ++ [sink] }

/-- An `AsyncLogger` right after construction, `add_sink` for each pointer of
`sinks` and `set_level(threshold)`. -/
def AsyncLogger.fresh (sinks : List (Option Nat)) (threshold : LogLevel) : AsyncLogger :=
  { sinks_ := sinks, level_ := threshold,
    log_pool := ThreadPool.init 1000 async_overflow_policy.block }

/-- A schedule of three steps: `log(level, format, args...)` is called when the
clock reads `now_call`; then `set_level(later)` is called; then a pool worker
runs one iteration on the sink objects of `heap` when the clock reads
`now_exec`. Returns what `enqueue` gave, the delivery the worker made, and the
logger afterwards. -/
def AsyncLogger.log_then_run (env : Env) (now_call now_exec : Nat) (heap : List base_sink)
    (a : AsyncLogger) (later : LogLevel) (level : LogLevel) (format : String)
    (args : List String) : EnqueueOutcome × Option Delivery × AsyncLogger :=
  let r := AsyncLogger.log now_call a level format args
  let w := (r.2.set_level later).worker_iteration env now_exec heap
  (r.1, w.1, w.2)

/-! ## 4.cpp: opening a file, constructing a `file_sink` -/

/-- The flags of `std::ios_base::openmode` that `file_helper::open` combines. -/
structure openmode where
  out : Bool
  app : Bool
  trunc : Bool
  deriving DecidableEq, Repr

/-- The file system as the stream library sees it: whether opening the named
file with the given flags succeeds. -/
structure FileSystem where
  can_open : String → openmode → Bool

/-- Constructor `file_helper::file_helper()`, line 16. -/
def file_helper.init : file_helper :=
  { file_stream_ := [], is_open_ := false }

/-- The flags computed in lines 19-22 of `file_helper::open`: `out | app`, and
`trunc` on top when `truncate` is set. -/
def file_helper.open_mode (truncate : Bool) : openmode :=
  let mode : openmode := { out := true, app := true, trunc := false }
  if truncate then { mode with trunc := true } else mode

/-- The value of `file_stream_.is_open()` in line 24, right after
`file_stream_.open(filename, mode)` of line 23. The stream of a helper is open
exactly when `is_open_` is set (the constructor, `open` and `close` keep it
so); an `open` on a stream that is already open leaves it open, and on a closed
stream the file system decides. -/
def file_helper.stream_is_open_after (fs : FileSystem) (h : file_helper) (filename : String)
    (mode : openmode) : Bool :=
  h.is_open_ || fs.can_open filename mode

/-- Method `file_helper::open`, lines 18-28. -/
def file_helper.open (fs : FileSystem) (h : file_helper) (filename : String)
    (truncate : Bool) : Except String file_helper :=
  let mode := file_helper.open_mode truncate
  if !(h.stream_is_open_after fs filename mode) then
    Except.error ("无法打开文件：" ++ filename)
  else
    Except.ok { h with is_open_ := true }

/-- Method `file_helper::flush`, lines 37-42. -/
def file_helper.flush (h : file_helper) : Except String file_helper :=
  if !h.is_open_ then
    Except.error "文件未打开"
  else
    Except.ok h

/-- Method `file_helper::close`, lines 44-49. -/
def file_helper.close (h : file_helper) : file_helper :=
  if h.is_open_ then { h with is_open_ := false } else h

/-- Constructor `file_sink::file_sink(filename)`, lines 90-92: the helper member
is default-constructed and `file_helper_.open(filename, false)` is called; an
exception of `open` leaves the constructor. -/
def file_sink.init (fs : FileSystem) (filename : String) : Except String base_sink :=
  match file_helper.init.open fs filename false with
  | Except.ok h => Except.ok (base_sink.file_sink filename h)
  | Except.error e => Except.error e

/-! ## 4.cpp: Registry -/

/-- Lookup in a `std::unordered_map<std::string, V>` kept as a list of
key/value pairs: `find(name)`, `none` for `end()`. -/
def umap_find {V : Type} (name : String) : List (String × V) → Option V
  | [] => none
  | (k, v) :: rest => if k = name then some v else umap_find name rest

/-- Assignment `m[name] = v` on a `std::unordered_map<std::string, V>`: the value
of an existing key is replaced, a new key gets a new entry. -/
def umap_assign {V : Type} (name : String) (v : V) : List (String × V) → List (String × V)
  | [] => [(name, v)]
  | (k, w) :: rest =>
    if k = name then (k, v) :: rest else (k, w) :: umap_assign name v rest

/-- The data member `loggers_` of `class Registry` (line 228). A
`std::shared_ptr<Logger>` is `Option ρ`: `none` is the null pointer, `some x`
points to the logger `x`. -/
structure Registry (ρ : Type) where
  loggers_ : List (String × Option ρ)
  deriving DecidableEq, Repr

/-- Constructor `Registry() = default` (line 223): the empty map. -/
def Registry.init {ρ : Type} : Registry ρ :=
  { loggers_ := [] }

/-- Method `Registry::registerLogger`, lines 208-211. -/
def Registry.registerLogger {ρ : Type} (r : Registry ρ) (name : String) (logger : Option ρ) :
    Registry ρ :=
  { loggers_ := umap_assign name logger r.loggers_ }

/-- Method `Registry::getLogger`, lines 213-220. -/
def Registry.getLogger {ρ : Type} (r : Registry ρ) (name : String) : Option ρ :=
  match umap_find name r.loggers_ with
  | some second => second
  | none => none

/-- A sequence of `registerLogger` calls, first to last. -/
def Registry.register_all {ρ : Type} (r : Registry ρ) : List (String × Option ρ) → Registry ρ
  | [] => r
  | (name, logger) :: rest => (r.registerLogger name logger).register_all rest

/-! ## 1.cpp: the logger that writes to a file of its own -/

/-- A `std::ofstream`: whether it is open, and the strings that reached the file. -/
structure ofstream where
  is_open : Bool
  data : List String
  deriving DecidableEq, Repr

/-- Constructor `std::ofstream(path, mode)`: open when the file system lets the
file be opened with `mode | out`. -/
def ofstream.init (fs : FileSystem) (path : String) (mode : openmode) : ofstream :=
  { is_open := fs.can_open path { mode with out := true }, data := [] }

/-- Operator `<<` on the stream: on a stream that is not open nothing is
written (and nothing is thrown, the stream only sets its fail bit). -/
def ofstream.put (s : ofstream) (msg : String) : ofstream :=
  if s.is_open then { s with data := s.data ++ [msg] } else s

/-- Method `std::ofstream::close`. -/
def ofstream.close (s : ofstream) : ofstream :=
  { s with is_open := false }

namespace Module1

/-- The data members of `class Logger` of 1.cpp (lines 46-47) without the mutex. -/
structure Logger where
  log_file : ofstream
  log_pool : ThreadPool LogTask
  deriving DecidableEq, Repr

/-- Constructor `Logger::Logger(logFilePath, poolSize)`, 1.cpp lines 19-23. -/
def Logger.init (fs : FileSystem) (logFilePath : String) : Except String Logger :=
  let log_file := ofstream.init fs logFilePath { out := false, app := true, trunc := false }
  if !log_file.is_open then
    Except.error "无法打开日志文件！"
  else
    Except.ok { log_file := log_file,
                log_pool := ThreadPool.init 1000 async_overflow_policy.block }

/-- Method `Logger::shutdown`, 1.cpp lines 30-34: `log_file.close()`. -/
def Logger.shutdown (lg : Logger) : Logger :=
  { lg with log_file := lg.log_file.close }

/-- Method `Logger::log`, 1.cpp lines 36-43: the lambda goes to `log_pool.enqueue`. -/
def Logger.log (lg : Logger) (level : LogLevel) (format : String) (args : List String) :
    EnqueueOutcome × Logger :=
  let r := lg.log_pool.enqueue { level := level, format := format, args := args }
  (r.1, { lg with log_pool := r.2 })

/-- One iteration of a pool worker on the logger of 1.cpp when the clock reads
`now`: take the front task and run its body, `log_file << log_entry` (1.cpp
lines 39-41). -/
def Logger.worker_iteration (env : Env) (now : Nat) (lg : Logger) : Logger :=
  match lg.log_pool.worker_step with
  | (WorkerOutcome.got t, p) =>
    { log_file := lg.log_file.put (log_entry env now t.level t.format t.args),
      log_pool := p }
  | (_, p) => { lg with log_pool := p }

end Module1

/-! ## Theorems: ThreadPool -/

section ThreadPoolFacts

variable {α : Type}

/-- An `enqueue` that starts when `stop` is set throws and changes nothing. -/
theorem enqueue_on_stopped (tp : ThreadPool α) (task : α) (h : tp.stop = true) :
    tp.enqueue task = (EnqueueOutcome.thrown, tp) := by
  simp [ThreadPool.enqueue, h]

/-- Below capacity an `enqueue` on a running pool appends at the tail. -/
theorem enqueue_below_capacity (tp : ThreadPool α) (task : α) (hs : tp.stop = false)
    (hlt : tp.tasks.length < tp.maxQueueSize) :
    tp.enqueue task = (EnqueueOutcome.accepted, { tp with tasks := tp.tasks ++ [task] }) := by
  have : ¬ tp.tasks.length ≥ tp.maxQueueSize := by omega
  simp [ThreadPool.enqueue, hs, this]

/-- A full queue under `discard_new`: the call returns the empty future and the
pool is untouched. -/
theorem enqueue_discard_full (tp : ThreadPool α) (task : α)
    (hp : tp.overflow_policy = async_overflow_policy.discard_new) (hs : tp.stop = false)
    (hfull : tp.tasks.length ≥ tp.maxQueueSize) :
    tp.enqueue task = (EnqueueOutcome.dropped, tp) := by
  simp [ThreadPool.enqueue, hs, hfull, hp]

/-- A full, non-empty queue under `overrun_oldest`: the head goes, the new task
is put at the tail. -/
theorem enqueue_overrun_full (tp : ThreadPool α) (task head : α) (rest : List α)
    (hp : tp.overflow_policy = async_overflow_policy.overrun_oldest) (hs : tp.stop = false)
    (ht : tp.tasks = head :: rest) (hfull : tp.tasks.length ≥ tp.maxQueueSize) :
    tp.enqueue task = (EnqueueOutcome.accepted, { tp with tasks := rest ++ [task] }) := by
  have hfull1 : tp.maxQueueSize ≤ rest.length + 1 := by simpa [ht] using hfull
  simp [ThreadPool.enqueue, hs, hp, ht, queue_pop, hfull1]

/-- C1: under `discard_new`, on a running pool whose queue has reached
`maxQueueSize`, `enqueue` returns the dropped result (it neither sleeps nor
throws) and leaves the pool as it was; hence any number of further submissions
leaves the queue, the sleeping producers and the accepted tasks unchanged, so
only a worker can shorten the queue. -/
theorem C1_discard_new_full_is_dropped (s : Sys α) (task : α)
    (hp : s.pool.overflow_policy = async_overflow_policy.discard_new)
    (hs : s.pool.stop = false)
    (hfull : s.pool.tasks.length ≥ s.pool.maxQueueSize) :
    s.pool.enqueue task = (EnqueueOutcome.dropped, s.pool) ∧
    ∀ xs : List α, ∃ s1, Sys.run s (xs.map Op.submit) = some s1 ∧
      s1.pool = s.pool ∧ s1.pool.tasks.length = s.pool.tasks.length ∧
      s1.waiting = s.waiting ∧ s1.accepted = s.accepted ∧ s1.delivered = s.delivered ∧
      s1.returned = s.returned ++ xs.map (fun x => (x, EnqueueOutcome.dropped)) := by
  refine ⟨enqueue_discard_full s.pool task hp hs hfull, ?_⟩
  intro xs
  induction xs generalizing s with
  | nil => exact ⟨s, by simp [Sys.run]⟩
  | cons x xs ih =>
    have hstep : s.step (Op.submit x)
        = some { s with returned := s.returned ++ [(x, EnqueueOutcome.dropped)] } := by
      simp [Sys.step, enqueue_discard_full s.pool x hp hs hfull]
    obtain ⟨s1, h1, h2, h3, h4, h5, h6, h7⟩ :=
      ih { s with returned := s.returned ++ [(x, EnqueueOutcome.dropped)] } hp hs hfull
    refine ⟨s1, ?_, h2, h3, h4, h5, h6, ?_⟩
    · simp [Sys.run, hstep, h1]
    · simpa using h7

/-- C1, at a concrete pool: capacity 2, queue 10, 20, submit 30 and 40. -/
theorem C1_discard_new_full_is_dropped_witness :
    (Sys.run (Sys.init 2 async_overflow_policy.discard_new)
        [Op.submit 10, Op.submit 20, Op.submit 30, Op.submit 40]).map
      (fun s : Sys Nat => (s.pool.tasks, s.accepted, s.returned.map Prod.snd))
      = some ([10, 20], [10, 20],
          [EnqueueOutcome.accepted, EnqueueOutcome.accepted, EnqueueOutcome.dropped,
           EnqueueOutcome.dropped]) ∧
    ∃ s1, Sys.run
        (Sys.mk (ThreadPool.mk [10, 20] false 2 async_overflow_policy.discard_new)
          [] [10, 20] [] [] 0 : Sys Nat)
        ([30, 40].map Op.submit) = some s1 ∧ s1.pool.tasks = [10, 20] :=
  ⟨by decide,
    by
      obtain ⟨s1, h1, h2, _⟩ := (C1_discard_new_full_is_dropped
        (Sys.mk (ThreadPool.mk [10, 20] false 2 async_overflow_policy.discard_new)
          [] [10, 20] [] [] 0 : Sys Nat) 30 rfl rfl (by decide)).2 [30, 40]
      exact ⟨s1, h1, by rw [h2]⟩⟩

/-- The scheduler step for a submission that `enqueue` accepts. -/
theorem step_submit_accepted (s : Sys α) (x : α) (p : ThreadPool α)
    (h : s.pool.enqueue x = (EnqueueOutcome.accepted, p)) :
    s.step (Op.submit x) =
      some { s with
             pool := p
             accepted := s.accepted ++ [x]
             returned := s.returned ++ [(x, EnqueueOutcome.accepted)] } := by
  simp [Sys.step, h]

/-- Under `overrun_oldest` with a capacity of at least one, an `enqueue` on a
running pool whose queue is within capacity keeps the newest `maxQueueSize`
of the old queue followed by the new task. -/
theorem enqueue_overrun_keeps_newest (tp : ThreadPool α) (task : α)
    (hp : tp.overflow_policy = async_overflow_policy.overrun_oldest) (hs : tp.stop = false)
    (hC : 0 < tp.maxQueueSize) (hlen : tp.tasks.length ≤ tp.maxQueueSize) :
    tp.enqueue task = (EnqueueOutcome.accepted,
      { tp with tasks := (tp.tasks ++ [task]).drop (tp.tasks.length + 1 - tp.maxQueueSize) }) := by
  by_cases hlt : tp.tasks.length < tp.maxQueueSize
  · have h0 : tp.tasks.length + 1 - tp.maxQueueSize = 0 := by omega
    rw [enqueue_below_capacity tp task hs hlt, h0]
    simp
  · have hfull : tp.tasks.length ≥ tp.maxQueueSize := by omega
    have h1 : tp.tasks.length + 1 - tp.maxQueueSize = 1 := by omega
    cases ht : tp.tasks with
    | nil => simp [ht] at hfull; omega
    | cons head rest =>
      rw [enqueue_overrun_full tp task head rest hp hs ht hfull]
      rw [ht] at h1
      rw [h1]
      simp

/-- Dropping from a list what exceeds `C`, appending, and dropping again is the
same as appending first. -/
theorem drop_excess_append (C : Nat) (l xs : List α) :
    (l.drop (l.length - C) ++ xs).drop ((l.drop (l.length - C) ++ xs).length - C)
      = (l ++ xs).drop ((l ++ xs).length - C) := by
  have hk : l.length - C ≤ l.length := Nat.sub_le _ _
  have h1 : l.drop (l.length - C) ++ xs = (l ++ xs).drop (l.length - C) := by
    rw [List.drop_append_of_le_length hk]
  rw [h1, List.drop_drop]
  congr 1
  simp only [List.length_drop, List.length_append]
  omega

/-- Submissions only, `overrun_oldest`, capacity at least one: the run is
defined, every task is accepted, and the queue ends as the newest
`maxQueueSize` tasks of the old queue followed by the submitted ones. -/
theorem run_submits_overrun (xs : List α) (s : Sys α)
    (hp : s.pool.overflow_policy = async_overflow_policy.overrun_oldest)
    (hs : s.pool.stop = false) (hC : 0 < s.pool.maxQueueSize)
    (hlen : s.pool.tasks.length ≤ s.pool.maxQueueSize) :
    ∃ s1, Sys.run s (xs.map Op.submit) = some s1 ∧
      s1.pool.tasks
        = (s.pool.tasks ++ xs).drop ((s.pool.tasks ++ xs).length - s.pool.maxQueueSize) ∧
      s1.accepted = s.accepted ++ xs ∧ s1.delivered = s.delivered ∧
      s1.waiting = s.waiting := by
  induction xs generalizing s with
  | nil =>
    refine ⟨s, by simp [Sys.run], ?_, by simp, rfl, rfl⟩
    have h0 : s.pool.tasks.length - s.pool.maxQueueSize = 0 := by omega
    simp [h0]
  | cons x xs ih =>
    have hstep := step_submit_accepted s x _ (enqueue_overrun_keeps_newest s.pool x hp hs hC hlen)
    have hlen1 : ((s.pool.tasks ++ [x]).drop (s.pool.tasks.length + 1 - s.pool.maxQueueSize)).length
        ≤ s.pool.maxQueueSize := by
      simp only [List.length_drop, List.length_append, List.length_singleton]
      omega
    obtain ⟨s1, h1, h2, h3, h4, h5⟩ := ih
      { s with
        pool := { s.pool with
          tasks := (s.pool.tasks ++ [x]).drop (s.pool.tasks.length + 1 - s.pool.maxQueueSize) },
        accepted := s.accepted ++ [x],
        returned := s.returned ++ [(x, EnqueueOutcome.accepted)] }
      hp hs hC hlen1
    refine ⟨s1, ?_, ?_, ?_, h4, h5⟩
    · simp only [List.map_cons, Sys.run, hstep, Option.bind_some]
      exact h1
    · rw [h2]
      have hd := drop_excess_append s.pool.maxQueueSize (s.pool.tasks ++ [x]) xs
      simp only [List.length_append, List.length_singleton, List.append_assoc,
        List.singleton_append] at hd
      simpa using hd
    · simpa using h3

/-- C2 (amended): for every capacity C of at least one and every N > C
submissions to a fresh pool with policy `overrun_oldest` and no worker step in
between, the run is defined, the queue ends with exactly the C most recently
submitted tasks in submission order, and the oldest N - C tasks are gone. -/
theorem C2_overrun_oldest_keeps_newest (C : Nat) (xs : List α) (hC : 0 < C)
    (hN : C < xs.length) :
    ∃ s, Sys.run (Sys.init C async_overflow_policy.overrun_oldest) (xs.map Op.submit) = some s ∧
      s.pool.tasks = xs.drop (xs.length - C) ∧
      s.pool.tasks.length = C ∧
      xs = xs.take (xs.length - C) ++ s.pool.tasks ∧
      s.accepted = xs ∧ s.delivered = [] ∧ s.waiting = [] := by
  obtain ⟨s, h1, h2, h3, h4, h5⟩ :=
    run_submits_overrun xs (Sys.init C async_overflow_policy.overrun_oldest) rfl rfl hC
      (Nat.zero_le _)
  have ht : s.pool.tasks = xs.drop (xs.length - C) := by
    simpa [Sys.init, ThreadPool.init] using h2
  refine ⟨s, h1, ht, ?_, ?_, ?_, ?_, ?_⟩
  · rw [ht, List.length_drop]; omega
  · rw [ht, List.take_append_drop]
  · simpa [Sys.init] using h3
  · simpa [Sys.init] using h4
  · simpa [Sys.init] using h5

/-- C2 (amended), at capacity 2 with the five submissions 1, 2, 3, 4, 5. -/
theorem C2_overrun_oldest_keeps_newest_witness :
    ∃ s, Sys.run (Sys.init 2 async_overflow_policy.overrun_oldest)
        (([1, 2, 3, 4, 5] : List Nat).map Op.submit) = some s ∧
      s.pool.tasks = [4, 5] ∧ s.pool.tasks.length = 2 ∧
      [1, 2, 3, 4, 5] = [1, 2, 3] ++ s.pool.tasks ∧
      s.accepted = [1, 2, 3, 4, 5] ∧ s.delivered = [] ∧ s.waiting = [] :=
  C2_overrun_oldest_keeps_newest 2 [1, 2, 3, 4, 5] (by decide) (by decide)

/-- C2 as stated fails at capacity 0: the first submission to a fresh
`overrun_oldest` pool of capacity 0 reaches `tasks.pop()` on the empty queue,
so no run of one submission ends with the queue holding the 0 newest tasks. -/
theorem C2_capacity_zero_counterexample :
    (ThreadPool.init 0 async_overflow_policy.overrun_oldest : ThreadPool Nat).enqueue 7
        = (EnqueueOutcome.undefined, ThreadPool.init 0 async_overflow_policy.overrun_oldest) ∧
    ¬ ∃ s : Sys Nat,
      Sys.run (Sys.init 0 async_overflow_policy.overrun_oldest) ([7].map Op.submit) = some s ∧
        s.pool.tasks = ([7] : List Nat).drop (1 - 0) := by
  refine ⟨by decide, ?_⟩
  rintro ⟨s, h, _⟩
  have hnone : Sys.run (Sys.init 0 async_overflow_policy.overrun_oldest : Sys Nat)
      ([7].map Op.submit) = none := by decide
  rw [hnone] at h
  exact Option.noConfusion h

/-- What `enqueue` can do to the pool: nothing unless the task is accepted, and
an accepted task is appended, after the head was removed when the queue was
full under `overrun_oldest`. -/
theorem enqueue_facts (tp : ThreadPool α) (x : α) :
    (tp.enqueue x).2.stop = tp.stop ∧
    (tp.enqueue x).2.maxQueueSize = tp.maxQueueSize ∧
    (tp.enqueue x).2.overflow_policy = tp.overflow_policy ∧
    ((tp.enqueue x).1 ≠ EnqueueOutcome.accepted → (tp.enqueue x).2 = tp) ∧
    ((tp.enqueue x).1 = EnqueueOutcome.accepted → tp.stop = false ∧
      ((tp.tasks.length < tp.maxQueueSize ∧ (tp.enqueue x).2.tasks = tp.tasks ++ [x]) ∨
       (tp.maxQueueSize ≤ tp.tasks.length ∧
        tp.overflow_policy = async_overflow_policy.overrun_oldest ∧
        ∃ a rest, tp.tasks = a :: rest ∧ (tp.enqueue x).2.tasks = rest ++ [x]))) := by
  unfold ThreadPool.enqueue
  split
  · simp
  · split
    · split
      · simp
      · cases ht : tp.tasks with
        | nil => simp [queue_pop]
        | cons a rest => simp_all [queue_pop]
      · simp
    · simp_all

/-- The scheduler step of a submission, in terms of `enqueue`. -/
theorem step_submit_facts (s s1 : Sys α) (x : α) (h : s.step (Op.submit x) = some s1) :
    s1.pool = (s.pool.enqueue x).2 ∧ s1.delivered = s.delivered ∧ s1.exited = s.exited ∧
    (s.pool.enqueue x).1 ≠ EnqueueOutcome.undefined ∧
    s1.accepted = (if (s.pool.enqueue x).1 = EnqueueOutcome.accepted then s.accepted ++ [x]
      else s.accepted) := by
  simp only [Sys.step] at h
  split at h <;> simp_all
  all_goals (subst h; simp_all)

/-- The four shapes of a defined scheduler step: the queue is left alone (and a
worker may have returned, which needs `stop` and an empty queue); a task is
appended below capacity; the head is overrun and a task appended; a worker
takes the head. Capacity and policy never change and `stop` is never reset. -/
theorem step_cases (s s1 : Sys α) (op : Op α) (h : s.step op = some s1) :
    (s1.pool.maxQueueSize = s.pool.maxQueueSize ∧
     s1.pool.overflow_policy = s.pool.overflow_policy ∧
     (s.pool.stop = true → s1.pool.stop = true)) ∧
    ((s1.pool.tasks = s.pool.tasks ∧ s1.accepted = s.accepted ∧ s1.delivered = s.delivered ∧
        (s1.exited = s.exited ∨
          (s1.exited = s.exited + 1 ∧ s.pool.tasks = [] ∧ s.pool.stop = true))) ∨
     (∃ x, s.pool.tasks.length < s.pool.maxQueueSize ∧ s1.pool.tasks = s.pool.tasks ++ [x] ∧
        s1.accepted = s.accepted ++ [x] ∧ s1.delivered = s.delivered ∧
        s1.exited = s.exited) ∨
     (∃ x a rest, s.pool.stop = false ∧
        s.pool.overflow_policy = async_overflow_policy.overrun_oldest ∧
        s.pool.maxQueueSize ≤ s.pool.tasks.length ∧ s.pool.tasks = a :: rest ∧
        s1.pool.tasks = rest ++ [x] ∧ s1.accepted = s.accepted ++ [x] ∧
        s1.delivered = s.delivered ∧ s1.exited = s.exited) ∨
     (∃ a rest, s.pool.tasks = a :: rest ∧ s1.pool.tasks = rest ∧
        s1.delivered = s.delivered ++ [a] ∧ s1.accepted = s.accepted ∧
        s1.exited = s.exited)) := by
  cases op with
  | submit x =>
    obtain ⟨hpool, hdel, hex, _, hacc⟩ := step_submit_facts s s1 x h
    obtain ⟨f1, f2, f3, f4, f5⟩ := enqueue_facts s.pool x
    refine ⟨⟨by rw [hpool, f2], by rw [hpool, f3], fun hs => by rw [hpool, f1, hs]⟩, ?_⟩
    by_cases hr : (s.pool.enqueue x).1 = EnqueueOutcome.accepted
    · rw [if_pos hr] at hacc
      obtain ⟨hstop, hcase⟩ := f5 hr
      rcases hcase with ⟨hlt, ht⟩ | ⟨hge, hpol, a, rest, ht, ht1⟩
      · exact Or.inr (Or.inl ⟨x, hlt, by rw [hpool, ht], hacc, hdel, hex⟩)
      · exact Or.inr (Or.inr (Or.inl
          ⟨x, a, rest, hstop, hpol, hge, ht, by rw [hpool, ht1], hacc, hdel, hex⟩))
    · rw [if_neg hr] at hacc
      exact Or.inl ⟨by rw [hpool, f4 hr], hacc, hdel, Or.inl hex⟩
  | wake i =>
    simp only [Sys.step, ThreadPool.enqueue_resume] at h
    split at h
    · simp only [Option.some.injEq] at h
      subst h
      exact ⟨⟨rfl, rfl, fun hs => hs⟩, Or.inl ⟨rfl, rfl, rfl, Or.inl rfl⟩⟩
    · rename_i x _
      split at h
      · rename_i p hp
        split at hp
        · simp only [Prod.mk.injEq, true_and] at hp
          simp only [Option.some.injEq] at h
          subst h
          subst hp
          rename_i hlt
          exact ⟨⟨rfl, rfl, fun hs => hs⟩, Or.inr (Or.inl ⟨x, hlt, rfl, rfl, rfl, rfl⟩)⟩
        · simp at hp
      · simp only [Option.some.injEq] at h
        subst h
        exact ⟨⟨rfl, rfl, fun hs => hs⟩, Or.inl ⟨rfl, rfl, rfl, Or.inl rfl⟩⟩
  | take =>
    simp only [Sys.step, ThreadPool.worker_step] at h
    cases ht : s.pool.tasks with
    | nil =>
      rw [ht] at h
      cases hs : s.pool.stop with
      | true =>
        simp only [hs, if_true, Option.some.injEq] at h
        subst h
        exact ⟨⟨rfl, rfl, fun _ => hs⟩, Or.inl ⟨ht, rfl, rfl, Or.inr ⟨rfl, rfl, rfl⟩⟩⟩
      | false =>
        simp only [hs, Bool.false_eq_true, if_false, Option.some.injEq] at h
        subst h
        exact ⟨⟨rfl, rfl, fun hs1 => by simp [hs] at hs1⟩, Or.inl ⟨ht, rfl, rfl, Or.inl rfl⟩⟩
    | cons a rest =>
      rw [ht] at h
      simp only [Option.some.injEq] at h
      subst h
      exact ⟨⟨rfl, rfl, fun hs => hs⟩, Or.inr (Or.inr (Or.inr ⟨a, rest, rfl, rfl, rfl, rfl, rfl⟩))⟩
  | set_stop =>
    simp only [Sys.step, ThreadPool.set_stop, Option.some.injEq] at h
    subst h
    exact ⟨⟨rfl, rfl, fun _ => rfl⟩, Or.inl ⟨rfl, rfl, rfl, Or.inl rfl⟩⟩

/-- The outcome `undefined` needs `overrun_oldest` and capacity 0. -/
theorem enqueue_undefined (tp : ThreadPool α) (x : α)
    (h : (tp.enqueue x).1 = EnqueueOutcome.undefined) :
    tp.overflow_policy = async_overflow_policy.overrun_oldest ∧ tp.maxQueueSize = 0 := by
  unfold ThreadPool.enqueue at h
  split at h
  · simp at h
  · split at h
    · split at h
      · simp at h
      · cases ht : tp.tasks with
        | nil => simp_all
        | cons a rest => simp [ht, queue_pop] at h
      · simp at h
    · simp at h

/-- A scheduler step is undefined only for a submission that overruns an empty
queue, which needs `overrun_oldest` and capacity 0. -/
theorem step_defined (s : Sys α) (op : Op α)
    (h : s.pool.overflow_policy ≠ async_overflow_policy.overrun_oldest ∨
      0 < s.pool.maxQueueSize) :
    ∃ s1, s.step op = some s1 := by
  cases hstep : s.step op with
  | some s1 => exact ⟨s1, rfl⟩
  | none =>
    exfalso
    cases op with
    | submit x =>
      simp only [Sys.step] at hstep
      split at hstep
      · rename_i heq
        have hu := enqueue_undefined s.pool x (by rw [heq])
        rcases h with h | h
        · exact h hu.1
        · omega
      all_goals simp at hstep
    | wake i =>
      simp only [Sys.step] at hstep
      split at hstep
      · simp at hstep
      · split at hstep <;> simp at hstep
    | take =>
      simp only [Sys.step] at hstep
      split at hstep <;> simp at hstep
    | set_stop => simp [Sys.step] at hstep

/-- Every defined schedule keeps `tasks.size() <= maxQueueSize`. -/
theorem queue_length_bounded (ops : List (Op α)) (s s1 : Sys α)
    (hinv : s.pool.tasks.length ≤ s.pool.maxQueueSize) (hrun : Sys.run s ops = some s1) :
    s1.pool.tasks.length ≤ s1.pool.maxQueueSize := by
  induction ops generalizing s with
  | nil =>
    simp only [Sys.run, Option.some.injEq] at hrun
    subst hrun
    exact hinv
  | cons op ops ih =>
    simp only [Sys.run] at hrun
    cases hstep : s.step op with
    | none => simp [hstep] at hrun
    | some s2 =>
      rw [hstep] at hrun
      refine ih s2 ?_ hrun
      obtain ⟨⟨hmax, _, _⟩, hcase⟩ := step_cases s s2 op hstep
      rcases hcase with ⟨ht, _⟩ | ⟨x, hlt, ht, _⟩ | ⟨x, a, rest, _, _, _, ht, ht1, _⟩ |
        ⟨a, rest, ht, ht1, _⟩
      · rw [ht, hmax]; exact hinv
      · rw [ht, hmax, List.length_append, List.length_singleton]; omega
      · rw [ht1, hmax, List.length_append, List.length_singleton]
        rw [ht, List.length_cons] at hinv
        exact hinv
      · rw [ht1, hmax]
        rw [ht, List.length_cons] at hinv
        omega

/-- With a capacity of at least one, or a policy other than `overrun_oldest`,
every schedule from a fresh pool is defined and keeps the queue within capacity. -/
theorem queue_length_bounded_defined (C : Nat) (policy : async_overflow_policy)
    (h : policy ≠ async_overflow_policy.overrun_oldest ∨ 0 < C) (ops : List (Op α)) :
    ∃ s : Sys α, Sys.run (Sys.init C policy) ops = some s ∧ s.pool.tasks.length ≤ C := by
  have key : ∀ (ops : List (Op α)) (s : Sys α),
      (s.pool.overflow_policy ≠ async_overflow_policy.overrun_oldest ∨
        0 < s.pool.maxQueueSize) →
      ∃ s1, Sys.run s ops = some s1 ∧ s1.pool.maxQueueSize = s.pool.maxQueueSize := by
    intro ops
    induction ops with
    | nil => intro s _; exact ⟨s, rfl, rfl⟩
    | cons op ops ih =>
      intro s hs
      obtain ⟨s2, hstep⟩ := step_defined s op hs
      obtain ⟨⟨hmax, hpol, _⟩, _⟩ := step_cases s s2 op hstep
      obtain ⟨s1, hrun, hmax1⟩ := ih s2 (by rw [hmax, hpol]; exact hs)
      exact ⟨s1, by simp [Sys.run, hstep, hrun], by rw [hmax1, hmax]⟩
  obtain ⟨s, hrun, hmax⟩ := key ops (Sys.init C policy) h
  have hb := queue_length_bounded ops (Sys.init C policy) s (Nat.zero_le _) hrun
  rw [hmax] at hb
  exact ⟨s, hrun, hb⟩

/-- C3, the failing input: on a fresh pool with capacity 0 and policy
`overrun_oldest` the first `enqueue` passes the test `tasks.size() >= maxQueueSize`
with an empty queue and calls `tasks.pop()` on it, so the call has no defined
result and the bound on the queue length is not maintained. -/
theorem C3_capacity_zero_overrun_pops_empty_queue (x : α) :
    (ThreadPool.init 0 async_overflow_policy.overrun_oldest : ThreadPool α).tasks.length
      ≥ (ThreadPool.init 0 async_overflow_policy.overrun_oldest : ThreadPool α).maxQueueSize ∧
    queue_pop (ThreadPool.init 0 async_overflow_policy.overrun_oldest : ThreadPool α).tasks
      = none ∧
    ((ThreadPool.init 0 async_overflow_policy.overrun_oldest : ThreadPool α).enqueue x).1
      = EnqueueOutcome.undefined ∧
    (Sys.init 0 async_overflow_policy.overrun_oldest : Sys α).step (Op.submit x) = none := by
  refine ⟨Nat.le_refl _, rfl, rfl, rfl⟩

/-- A producer that wakes in the wait of `enqueue` while the queue is below
capacity has its task appended whatever the value of `stop`. -/
theorem enqueue_resume_ignores_stop (tp : ThreadPool α) (task : α)
    (hlt : tp.tasks.length < tp.maxQueueSize) :
    tp.enqueue_resume task
      = (EnqueueOutcome.accepted, { tp with tasks := tp.tasks ++ [task] }) := by
  simp [ThreadPool.enqueue_resume, hlt]

/-- C4, the failing input: capacity 1, policy `block`; task 1 is queued, the
submission of task 2 goes to sleep, the destructor sets `stop`, a worker takes
task 1, the sleeping submission wakes: it returns a valid future and task 2 is
in the queue of the stopped pool. -/
theorem C4_suspended_enqueue_succeeds_after_stop :
    (Sys.run (Sys.init 1 async_overflow_policy.block)
        [Op.submit 1, Op.submit 2, Op.set_stop]).map
      (fun s : Sys Nat => (s.pool.stop, s.pool.tasks, s.waiting, s.returned))
      = some (true, [1], [2], [(1, EnqueueOutcome.accepted)]) ∧
    (Sys.run (Sys.init 1 async_overflow_policy.block)
        [Op.submit 1, Op.submit 2, Op.set_stop, Op.take, Op.wake 0]).map
      (fun s : Sys Nat => (s.pool.stop, s.pool.tasks, s.waiting, s.accepted, s.returned))
      = some (true, [2], [], [1, 2],
          [(1, EnqueueOutcome.accepted), (2, EnqueueOutcome.accepted)]) ∧
    (ThreadPool.mk ([] : List Nat) true 1 async_overflow_policy.block).enqueue_resume 2
      = (EnqueueOutcome.accepted, ThreadPool.mk [2] true 1 async_overflow_policy.block) :=
  ⟨by decide, by rfl, by rfl⟩

/-- The terminal signal is given exactly when `stop` is set and the queue is empty. -/
theorem worker_step_terminal_iff (tp : ThreadPool α) :
    tp.worker_step.1 = WorkerOutcome.terminal ↔ (tp.stop = true ∧ tp.tasks = []) := by
  unfold ThreadPool.worker_step
  cases ht : tp.tasks with
  | nil => cases hs : tp.stop <;> simp
  | cons a rest => simp

/-- On a non-empty queue a worker removes and returns the head, stopped or not. -/
theorem worker_step_cons (tp : ThreadPool α) (a : α) (rest : List α)
    (ht : tp.tasks = a :: rest) :
    tp.worker_step = (WorkerOutcome.got a, { tp with tasks := rest }) := by
  simp [ThreadPool.worker_step, ht]

/-- After `stop` is set every schedule is defined, `stop` stays set, the tasks
removed so far followed by the queue start with what was removed and queued at
the time of the stop, and once a worker has returned all of that has been
removed, in order. -/
theorem drain_invariant (d0 q : List α) (e0 : Nat) (ops : List (Op α)) (s : Sys α)
    (hs : s.pool.stop = true)
    (hq : ∃ extra, s.delivered ++ s.pool.tasks = d0 ++ q ++ extra)
    (he : e0 < s.exited → ∃ rest, s.delivered = d0 ++ q ++ rest) :
    ∃ s1, Sys.run s ops = some s1 ∧ s1.pool.stop = true ∧
      (∃ extra, s1.delivered ++ s1.pool.tasks = d0 ++ q ++ extra) ∧
      (e0 < s1.exited → ∃ rest, s1.delivered = d0 ++ q ++ rest) := by
  induction ops generalizing s with
  | nil => exact ⟨s, rfl, hs, hq, he⟩
  | cons op ops ih =>
    cases hstep : s.step op with
    | none =>
      exfalso
      cases op with
      | submit x =>
        simp only [Sys.step, enqueue_on_stopped s.pool x hs] at hstep
        simp at hstep
      | wake i =>
        simp only [Sys.step] at hstep
        split at hstep
        · simp at hstep
        · split at hstep <;> simp at hstep
      | take =>
        simp only [Sys.step] at hstep
        split at hstep <;> simp at hstep
      | set_stop => simp [Sys.step] at hstep
    | some s2 =>
      obtain ⟨⟨_, _, hstop⟩, hcase⟩ := step_cases s s2 op hstep
      obtain ⟨extra, hq1⟩ := hq
      have hs2 : s2.pool.stop = true := hstop hs
      have key : (∃ extra, s2.delivered ++ s2.pool.tasks = d0 ++ q ++ extra) ∧
          (e0 < s2.exited → ∃ rest, s2.delivered = d0 ++ q ++ rest) := by
        rcases hcase with ⟨ht, _, hd, hex⟩ | ⟨x, _, ht, _, hd, hex⟩ |
          ⟨x, a, rest, hns, _⟩ | ⟨a, rest, ht, ht1, hd, _, hex⟩
        · refine ⟨⟨extra, by rw [hd, ht, hq1]⟩, ?_⟩
          rcases hex with hex | ⟨_, hnil, _⟩
          · rw [hex, hd]; exact he
          · intro _
            refine ⟨extra, ?_⟩
            rw [hd]
            rw [hnil, List.append_nil] at hq1
            exact hq1
        · refine ⟨⟨extra ++ [x], ?_⟩, ?_⟩
          · rw [hd, ht, ← List.append_assoc, hq1, List.append_assoc (d0 ++ q)]
          · rw [hex, hd]; exact he
        · rw [hs] at hns
          exact absurd hns (by decide)
        · refine ⟨⟨extra, ?_⟩, ?_⟩
          · rw [hd, ht1, List.append_assoc, List.singleton_append, ← ht, hq1]
          · rw [hex, hd]
            intro hlt
            obtain ⟨r, hr⟩ := he hlt
            exact ⟨r ++ [a], by rw [hr, List.append_assoc (d0 ++ q)]⟩
      obtain ⟨s1, hrun, h1, h2, h3⟩ := ih s2 hs2 key.1 key.2
      exact ⟨s1, by simp [Sys.run, hstep, hrun], h1, h2, h3⟩

/-- Workers alone, after `stop`: as many worker steps as there are queued tasks
remove them all in queue order and none of these steps is the terminal one; the
next worker step is. -/
theorem drain_by_workers (s : Sys α) (hs : s.pool.stop = true) :
    ∃ s1, Sys.run s (List.replicate s.pool.tasks.length Op.take) = some s1 ∧
      s1.delivered = s.delivered ++ s.pool.tasks ∧ s1.pool.tasks = [] ∧
      s1.exited = s.exited ∧
      ∃ s2, s1.step Op.take = some s2 ∧ s2.exited = s.exited + 1 ∧
        s2.delivered = s1.delivered := by
  generalize hq : s.pool.tasks = q
  induction q generalizing s with
  | nil =>
    refine ⟨s, rfl, by simp, hq, rfl, ?_⟩
    refine ⟨{ s with exited := s.exited + 1 }, ?_, rfl, rfl⟩
    simp [Sys.step, ThreadPool.worker_step, hq, hs]
  | cons a rest ih =>
    have hstep : s.step Op.take
        = some { s with pool := { s.pool with tasks := rest },
                        delivered := s.delivered ++ [a] } := by
      simp [Sys.step, worker_step_cons s.pool a rest hq]
    obtain ⟨s1, hrun, hd, ht, hex, hnext⟩ :=
      ih { s with pool := { s.pool with tasks := rest }, delivered := s.delivered ++ [a] }
        hs rfl
    refine ⟨s1, ?_, ?_, ht, hex, hnext⟩
    · simp only [List.length_cons, List.replicate_succ, Sys.run, hstep, Option.bind_some]
      exact hrun
    · rw [hd]; simp

/-- C5: a worker step gives the terminal signal exactly when `stop` is set and
the queue is empty, and on a non-empty queue it removes and returns the head
whether or not `stop` is set. Hence from a state `s` in which `stop` is set,
with queue `q`: every schedule is defined; in every schedule in which some
worker has got the terminal signal, the tasks removed by workers since `s`
start with all of `q` in queue order; and the workers do drain `q`: after
`q.length` worker steps the queue is empty, `q` has been removed in order, no
worker has returned yet, and the next worker step is the terminal one. -/
theorem C5_drain_before_terminal (s : Sys α) (hs : s.pool.stop = true) :
    (∀ tp : ThreadPool α,
      tp.worker_step.1 = WorkerOutcome.terminal ↔ (tp.stop = true ∧ tp.tasks = [])) ∧
    (∀ (tp : ThreadPool α) (a : α) (rest : List α), tp.tasks = a :: rest →
      tp.worker_step = (WorkerOutcome.got a, { tp with tasks := rest })) ∧
    (∀ ops : List (Op α), ∃ s1, Sys.run s ops = some s1 ∧
      (s.exited < s1.exited → ∃ rest, s1.delivered = s.delivered ++ s.pool.tasks ++ rest)) ∧
    (∃ s1, Sys.run s (List.replicate s.pool.tasks.length Op.take) = some s1 ∧
      s1.delivered = s.delivered ++ s.pool.tasks ∧ s1.pool.tasks = [] ∧
      s1.exited = s.exited ∧
      ∃ s2, s1.step Op.take = some s2 ∧ s2.exited = s.exited + 1 ∧
        s2.delivered = s1.delivered) := by
  refine ⟨worker_step_terminal_iff, worker_step_cons, ?_, drain_by_workers s hs⟩
  intro ops
  obtain ⟨s1, hrun, _, _, h3⟩ := drain_invariant s.delivered s.pool.tasks s.exited ops s hs
    ⟨[], by simp⟩ (fun h => absurd h (Nat.lt_irrefl _))
  exact ⟨s1, hrun, h3⟩

/-- C5 at a concrete state: the queue is 1, 2, 3 when `stop` is set; a late
submission throws, and the first worker to return does so after 1, 2, 3 were
removed in that order. -/
theorem C5_drain_before_terminal_witness :
    (∃ s1, Sys.run (Sys.mk (ThreadPool.mk [1, 2, 3] true 5 async_overflow_policy.block)
          [] [1, 2, 3] [] [] 0 : Sys Nat)
        [Op.take, Op.submit 4, Op.take, Op.take, Op.take] = some s1 ∧
      ((Sys.mk (ThreadPool.mk [1, 2, 3] true 5 async_overflow_policy.block)
          [] [1, 2, 3] [] [] 0 : Sys Nat).exited < s1.exited →
        ∃ rest, s1.delivered = [] ++ [1, 2, 3] ++ rest)) ∧
    (Sys.run (Sys.mk (ThreadPool.mk [1, 2, 3] true 5 async_overflow_policy.block)
          [] [1, 2, 3] [] [] 0 : Sys Nat)
        [Op.take, Op.submit 4, Op.take, Op.take, Op.take]).map
      (fun s => (s.delivered, s.pool.tasks, s.exited, s.returned))
      = some ([1, 2, 3], [], 1, [(4, EnqueueOutcome.thrown)]) :=
  ⟨(C5_drain_before_terminal
      (Sys.mk (ThreadPool.mk [1, 2, 3] true 5 async_overflow_policy.block)
        [] [1, 2, 3] [] [] 0 : Sys Nat) rfl).2.2.1
      [Op.take, Op.submit 4, Op.take, Op.take, Op.take], by rfl⟩

/-- Under `block` or `discard_new` every schedule is defined and keeps: the
tasks removed by workers followed by the queue are the accepted tasks, in
acceptance order. -/
theorem fifo_invariant (ops : List (Op α)) (s : Sys α)
    (hp : s.pool.overflow_policy ≠ async_overflow_policy.overrun_oldest)
    (hinv : s.delivered ++ s.pool.tasks = s.accepted) :
    ∃ s1, Sys.run s ops = some s1 ∧ s1.delivered ++ s1.pool.tasks = s1.accepted := by
  induction ops generalizing s with
  | nil => exact ⟨s, rfl, hinv⟩
  | cons op ops ih =>
    obtain ⟨s2, hstep⟩ := step_defined s op (Or.inl hp)
    obtain ⟨⟨_, hpol, _⟩, hcase⟩ := step_cases s s2 op hstep
    have hinv2 : s2.delivered ++ s2.pool.tasks = s2.accepted := by
      rcases hcase with ⟨ht, ha, hd, _⟩ | ⟨x, _, ht, ha, hd, _⟩ |
        ⟨x, a, rest, _, hov, _⟩ | ⟨a, rest, ht, ht1, hd, ha, _⟩
      · rw [ht, ha, hd]; exact hinv
      · rw [ht, ha, hd, ← List.append_assoc, hinv]
      · exact absurd hov hp
      · rw [ht1, ha, hd, List.append_assoc, List.singleton_append, ← ht]; exact hinv
    obtain ⟨s1, hrun, h1⟩ := ih s2 (by rw [hpol]; exact hp) hinv2
    exact ⟨s1, by simp [Sys.run, hstep, hrun], h1⟩

/-- C6: under `block` or `discard_new`, for every capacity and every schedule of
submissions, wake-ups, worker steps and stop requests from a fresh pool, the run
is defined and the tasks removed by workers so far, followed by the tasks still
queued, are exactly the accepted tasks in acceptance order. In the scenario of
capacity 2 with `discard_new`: A and B are accepted, C is dropped, a worker
takes A, D is accepted, the queue is B, D; two more worker steps make the
removal order A, B, D. -/
theorem C6_fifo_no_loss_no_duplication (C : Nat) (policy : async_overflow_policy)
    (hp : policy = async_overflow_policy.block ∨ policy = async_overflow_policy.discard_new)
    (ops : List (Op α)) :
    (∃ s : Sys α, Sys.run (Sys.init C policy) ops = some s ∧
      s.delivered ++ s.pool.tasks = s.accepted) ∧
    (Sys.run (Sys.init 2 async_overflow_policy.discard_new)
        [Op.submit 'A', Op.submit 'B', Op.submit 'C', Op.take, Op.submit 'D']).map
      (fun s => (s.pool.tasks, s.delivered, s.accepted, s.returned.map Prod.snd))
      = some (['B', 'D'], ['A'], ['A', 'B', 'D'],
          [EnqueueOutcome.accepted, EnqueueOutcome.accepted, EnqueueOutcome.dropped,
           EnqueueOutcome.accepted]) ∧
    (Sys.run (Sys.init 2 async_overflow_policy.discard_new)
        [Op.submit 'A', Op.submit 'B', Op.submit 'C', Op.take, Op.submit 'D',
         Op.take, Op.take]).map
      (fun s => (s.pool.tasks, s.delivered))
      = some ([], ['A', 'B', 'D']) := by
  refine ⟨?_, by rfl, by rfl⟩
  refine fifo_invariant ops (Sys.init C policy) ?_ rfl
  rcases hp with hp | hp <;> rw [hp] <;> simp [Sys.init, ThreadPool.init]

/-- C6 at the scenario of the specification. -/
theorem C6_fifo_no_loss_no_duplication_witness :
    ∃ s : Sys Char, Sys.run (Sys.init 2 async_overflow_policy.discard_new)
        [Op.submit 'A', Op.submit 'B', Op.submit 'C', Op.take, Op.submit 'D'] = some s ∧
      s.delivered ++ s.pool.tasks = s.accepted :=
  (C6_fifo_no_loss_no_duplication 2 async_overflow_policy.discard_new (Or.inr rfl)
    [Op.submit 'A', Op.submit 'B', Op.submit 'C', Op.take, Op.submit 'D']).1

end ThreadPoolFacts

/-! ## Theorems: sinks and Logger -/

/-- A sink whose target takes writes: `log` returns, the message is the one new
item at the end of what the sink has written, and the target still takes writes. -/
theorem log_of_accepts (sink : base_sink) (msg : String) (h : sink.accepts = true) :
    ∃ sink1, sink.log msg = Except.ok sink1 ∧ sink1.written = sink.written ++ [msg] ∧
      sink1.accepts = true := by
  cases sink with
  | ansicolor_sink f =>
    simp only [base_sink.accepts] at h
    exact ⟨base_sink.ansicolor_sink { f with printed := f.printed ++ [msg] },
      by simp [base_sink.log, fmt_print, h], rfl, h⟩
  | file_sink name hlp =>
    simp only [base_sink.accepts] at h
    exact ⟨base_sink.file_sink name { hlp with file_stream_ := hlp.file_stream_ ++ [msg] },
      by simp [base_sink.log, file_helper.write, h], rfl, h⟩

/-- A sink whose target does not take writes: `log` throws. -/
theorem log_of_not_accepts (sink : base_sink) (msg : String) (h : sink.accepts = false) :
    ∃ e, sink.log msg = Except.error e := by
  cases sink with
  | ansicolor_sink f =>
    simp only [base_sink.accepts] at h
    exact ⟨"cannot write to file", by simp [base_sink.log, fmt_print, h]⟩
  | file_sink name hlp =>
    simp only [base_sink.accepts] at h
    exact ⟨"文件未打开", by simp [base_sink.log, file_helper.write, h]⟩

/-- Adding no lines leaves a sink as it is. -/
theorem with_output_nil (sink : base_sink) : sink.with_output [] = sink := by
  cases sink <;> simp [base_sink.with_output]

/-- Adding lines twice is adding their concatenation. -/
theorem with_output_append (sink : base_sink) (a b : List String) :
    (sink.with_output a).with_output b = sink.with_output (a ++ b) := by
  cases sink <;> simp [base_sink.with_output]

/-- The added lines are the new output, at the end. -/
theorem written_with_output (sink : base_sink) (lines : List String) :
    (sink.with_output lines).written = sink.written ++ lines := by
  cases sink <;> rfl

/-- Added output does not change whether the target takes writes. -/
theorem accepts_with_output (sink : base_sink) (lines : List String) :
    (sink.with_output lines).accepts = sink.accepts := by
  cases sink <;> rfl

/-- On a sink whose target takes writes, `log` returns the sink with the
message as its one new output. -/
theorem log_eq_with_output (sink : base_sink) (msg : String) (h : sink.accepts = true) :
    sink.log msg = Except.ok (sink.with_output [msg]) := by
  cases sink with
  | ansicolor_sink f =>
    simp only [base_sink.accepts] at h
    simp [base_sink.log, fmt_print, h, base_sink.with_output]
  | file_sink name hlp =>
    simp only [base_sink.accepts] at h
    simp [base_sink.log, file_helper.write, h, base_sink.with_output]

/-- A heap gains nothing from no call. -/
theorem heap_gains_refl (heap : List base_sink) (entry : String) :
    heap_gains heap heap (fun _ => 0) entry := by
  refine ⟨rfl, fun j sink hj => ?_⟩
  simp [hj, with_output_nil]

/-- The counts of `heap_gains` may be replaced by equal ones. -/
theorem heap_gains_congr (before after : List base_sink) (c1 c2 : Nat → Nat) (entry : String)
    (h : heap_gains before after c1 entry) (hc : ∀ j, c1 j = c2 j) :
    heap_gains before after c2 entry := by
  refine ⟨h.1, fun j sink hj => ?_⟩
  rw [← hc j]
  exact h.2 j sink hj

/-- One successful `log` on the sink at position `j0`, followed by gains counted
by `cnt`, is a gain of one more for `j0`. -/
theorem heap_gains_step (heap after : List base_sink) (j0 : Nat) (s0 : base_sink)
    (entry : String) (cnt : Nat → Nat) (h0 : heap[j0]? = some s0)
    (hg : heap_gains (heap.set j0 (s0.with_output [entry])) after cnt entry) :
    heap_gains heap after (fun j => if j = j0 then cnt j + 1 else cnt j) entry := by
  obtain ⟨hlen, hget⟩ := hg
  refine ⟨by rw [hlen, List.length_set], fun j sink hj => ?_⟩
  by_cases hjj : j = j0
  · subst hjj
    rw [h0] at hj
    cases hj
    have hlt : j < heap.length := by
      rcases Nat.lt_or_ge j heap.length with h | h
      · exact h
      · rw [List.getElem?_eq_none h] at h0
        cases h0
    have h1 : (heap.set j (s0.with_output [entry]))[j]? = some (s0.with_output [entry]) := by
      simp [List.getElem?_set_self, hlt]
    have h2 := hget j _ h1
    rw [h2, with_output_append]
    simp [List.replicate_succ]
  · have h1 : (heap.set j0 (s0.with_output [entry]))[j]? = some sink := by
      rw [List.getElem?_set_ne (Ne.symm hjj)]
      exact hj
    have h2 := hget j _ h1
    simp [hjj, h2]

/-- Below the threshold the loop calls no sink, follows no pointer and changes
nothing. -/
theorem write_loop_below (level_ level : LogLevel) (entry : String) (i : Nat)
    (sinks : List (Option Nat)) (heap : List base_sink) (h : level.toNat < level_.toNat) :
    write_loop level_ level entry i sinks heap
      = { heap := heap, calls := [], ending := LoopEnd.returned } := by
  induction sinks generalizing i with
  | nil => rfl
  | cons sink rest ih =>
    have hn : ¬ level.toNat ≥ level_.toNat := by omega
    simp [write_loop, hn, ih]

/-- The number of times a pointer occurs in a list that starts with `some j0`. -/
theorem count_cons_some (j0 j : Nat) (rest : List (Option Nat)) :
    (some j0 :: rest).count (some j)
      = if j = j0 then rest.count (some j) + 1 else rest.count (some j) := by
  by_cases hjj : j = j0
  · subst hjj
    simp
  · have hne : ¬ (j0 = j) := fun h => hjj h.symm
    simp [List.count_cons, hjj, hne]

/-- At or above the threshold, with every registered pointer pointing to a sink
whose target takes writes: the loop calls `log` once at each position of
`sinks_`, in order, does not throw, and each sink object has got the line as
many times as it is registered. -/
theorem write_loop_all_accept (level_ level : LogLevel) (entry : String) (i : Nat)
    (sinks : List (Option Nat)) (heap : List base_sink) (h : level_.toNat ≤ level.toNat)
    (hacc : ∀ p ∈ sinks, ∃ j sink, p = some j ∧ heap[j]? = some sink ∧ sink.accepts = true) :
    (write_loop level_ level entry i sinks heap).ending = LoopEnd.returned ∧
    (write_loop level_ level entry i sinks heap).calls = List.range' i sinks.length ∧
    heap_gains heap (write_loop level_ level entry i sinks heap).heap
      (fun j => sinks.count (some j)) entry := by
  have hge : level.toNat ≥ level_.toNat := h
  induction sinks generalizing i heap with
  | nil => exact ⟨rfl, rfl, by simpa using heap_gains_refl heap entry⟩
  | cons p rest ih =>
    obtain ⟨j0, s0, hp, h0, ha0⟩ := hacc p (List.mem_cons_self _ _)
    subst hp
    have hrest : ∀ q ∈ rest, ∃ j sink, q = some j ∧
        (heap.set j0 (s0.with_output [entry]))[j]? = some sink ∧ sink.accepts = true := by
      intro q hq
      obtain ⟨j, sink, hqj, hj, ha⟩ := hacc q (List.mem_cons_of_mem _ hq)
      by_cases hjj : j = j0
      · subst hjj
        have hlt : j < heap.length := by
          rcases Nat.lt_or_ge j heap.length with hl | hl
          · exact hl
          · rw [List.getElem?_eq_none hl] at h0
            cases h0
        exact ⟨j, s0.with_output [entry], hqj, by simp [List.getElem?_set_self, hlt],
          by rw [accepts_with_output]; exact ha0⟩
      · exact ⟨j, sink, hqj, by rw [List.getElem?_set_ne (Ne.symm hjj)]; exact hj, ha⟩
    obtain ⟨h1, h2, h3⟩ := ih (i + 1) (heap.set j0 (s0.with_output [entry])) hrest
    simp only [write_loop, hge, if_true, deref, h0, log_eq_with_output s0 entry ha0]
    refine ⟨h1, ?_, ?_⟩
    · simp [h2, List.range'_succ]
    · refine heap_gains_congr _ _ _ _ entry (heap_gains_step heap _ j0 s0 entry _ h0 h3) ?_
      intro j
      rw [count_cons_some]

/-- At or above the threshold, when the pointers of `pre` point to sinks that
take the write and the next pointer to a sink that does not: `log` is called at
the positions of `pre` and at the failing position, the exception leaves the
loop, each sink object has got the line as many times as it occurs in `pre`,
and nothing is called or changed for the pointers after the failing one. -/
theorem write_loop_first_failure (level_ level : LogLevel) (entry : String) (i : Nat)
    (pre post : List (Option Nat)) (jb : Nat) (bad : base_sink) (heap : List base_sink)
    (h : level_.toNat ≤ level.toNat)
    (hpre : ∀ p ∈ pre, ∃ j sink, p = some j ∧ heap[j]? = some sink ∧ sink.accepts = true)
    (hb : heap[jb]? = some bad) (hbad : bad.accepts = false) :
    (∃ e, bad.log entry = Except.error e ∧
      (write_loop level_ level entry i (pre ++ some jb :: post) heap).ending
        = LoopEnd.thrown e) ∧
    (write_loop level_ level entry i (pre ++ some jb :: post) heap).calls
      = List.range' i (pre.length + 1) ∧
    heap_gains heap (write_loop level_ level entry i (pre ++ some jb :: post) heap).heap
      (fun j => pre.count (some j)) entry := by
  have hge : level.toNat ≥ level_.toNat := h
  induction pre generalizing i heap with
  | nil =>
    obtain ⟨e, he⟩ := log_of_not_accepts bad entry hbad
    simp only [List.nil_append, write_loop, hge, if_true, deref, hb, he]
    exact ⟨⟨e, rfl, rfl⟩, by simp, by simpa using heap_gains_refl heap entry⟩
  | cons p rest ih =>
    obtain ⟨j0, s0, hp, h0, ha0⟩ := hpre p (List.mem_cons_self _ _)
    subst hp
    have hne : jb ≠ j0 := by
      intro hjj
      subst hjj
      rw [hb] at h0
      cases h0
      rw [hbad] at ha0
      cases ha0
    have hrest : ∀ q ∈ rest, ∃ j sink, q = some j ∧
        (heap.set j0 (s0.with_output [entry]))[j]? = some sink ∧ sink.accepts = true := by
      intro q hq
      obtain ⟨j, sink, hqj, hj, ha⟩ := hpre q (List.mem_cons_of_mem _ hq)
      by_cases hjj : j = j0
      · subst hjj
        have hlt : j < heap.length := by
          rcases Nat.lt_or_ge j heap.length with hl | hl
          · exact hl
          · rw [List.getElem?_eq_none hl] at h0
            cases h0
        exact ⟨j, s0.with_output [entry], hqj, by simp [List.getElem?_set_self, hlt],
          by rw [accepts_with_output]; exact ha0⟩
      · exact ⟨j, sink, hqj, by rw [List.getElem?_set_ne (Ne.symm hjj)]; exact hj, ha⟩
    have hb1 : (heap.set j0 (s0.with_output [entry]))[jb]? = some bad := by
      rw [List.getElem?_set_ne (Ne.symm hne)]
      exact hb
    obtain ⟨⟨e, he1, he2⟩, h2, h3⟩ :=
      ih (i + 1) (heap.set j0 (s0.with_output [entry])) hrest hb1
    simp only [List.cons_append, write_loop, hge, if_true, deref, h0,
      log_eq_with_output s0 entry ha0]
    refine ⟨⟨e, he1, he2⟩, ?_, ?_⟩
    · simp [h2, List.range'_succ]
    · refine heap_gains_congr _ _ _ _ entry (heap_gains_step heap _ j0 s0 entry _ h0 h3) ?_
      intro j
      rw [count_cons_some]

/-- An element of a list without repetition occurs in it once. -/
theorem count_of_mem_nodup {α : Type} [BEq α] [LawfulBEq α] (a : α) (l : List α)
    (hnd : l.Nodup) (hmem : a ∈ l) : l.count a = 1 := by
  induction l with
  | nil => cases hmem
  | cons b rest ih =>
    rw [List.nodup_cons] at hnd
    rw [List.count_cons]
    by_cases hab : b = a
    · subst hab
      have h0 : rest.count b = 0 := List.count_eq_zero.2 hnd.1
      simp [h0]
    · have hmem1 : a ∈ rest := by
        rcases List.mem_cons.1 hmem with h | h
        · exact absurd h.symm hab
        · exact h
      simp [ih hnd.2 hmem1, hab]

/-- A pointer that points to an accepting sink, spelled out. -/
theorem points_to_accepting_iff (heap : List base_sink) (p : Option Nat) :
    points_to_accepting heap p = true ↔
      ∃ j sink, p = some j ∧ heap[j]? = some sink ∧ sink.accepts = true := by
  cases p with
  | none => simp [points_to_accepting, deref]
  | some j =>
    cases hj : heap[j]? with
    | none => simp [points_to_accepting, deref, hj]
    | some sink => simp [points_to_accepting, deref, hj]

/-- C7 (amended): `Logger::write_to_sinks` calls no sink, changes nothing and
returns normally when level < threshold, whatever the registered pointers are.
When level >= threshold, every registered pointer points to a sink and the
target of each takes the write, it calls `log` with the line once for every
registration, in registration order, and returns: a sink object registered
once has the line as its one new output, a sink registered k times has it k
times, and a sink that is not registered is unchanged. `Logger::log` passes
the line formatted from the clock, the level and the message. In particular
with threshold WARNING an INFO record reaches no sink, and an ERROR record
reaches every registered sink under the same conditions. -/
theorem C7_level_filter_and_fan_out (lg : Logger) (heap : List base_sink) (entry : String)
    (level : LogLevel) :
    (level.toNat < lg.level_.toNat →
      lg.write_to_sinks heap entry level
        = { heap := heap, calls := [], ending := LoopEnd.returned }) ∧
    (lg.level_.toNat ≤ level.toNat →
      (∀ p ∈ lg.sinks_, points_to_accepting heap p = true) →
      (lg.write_to_sinks heap entry level).ending = LoopEnd.returned ∧
      (lg.write_to_sinks heap entry level).calls = List.range lg.sinks_.length ∧
      heap_gains heap (lg.write_to_sinks heap entry level).heap
        (fun j => lg.sinks_.count (some j)) entry ∧
      (∀ j sink, heap[j]? = some sink →
        ∃ sink1, (lg.write_to_sinks heap entry level).heap[j]? = some sink1 ∧
          sink1.written = sink.written ++ List.replicate (lg.sinks_.count (some j)) entry) ∧
      (lg.sinks_.Nodup → ∀ j sink, some j ∈ lg.sinks_ → heap[j]? = some sink →
        ∃ sink1, (lg.write_to_sinks heap entry level).heap[j]? = some sink1 ∧
          sink1.written = sink.written ++ [entry])) ∧
    (∀ (env : Env) (now : Nat) (format : String) (args : List String),
      Logger.log env now lg heap level format args
        = lg.write_to_sinks heap (log_entry env now level format args) level) ∧
    (lg.level_ = LogLevel.WARNING →
      lg.write_to_sinks heap entry LogLevel.INFO
        = { heap := heap, calls := [], ending := LoopEnd.returned }) ∧
    (lg.level_ = LogLevel.WARNING →
      (∀ p ∈ lg.sinks_, points_to_accepting heap p = true) →
      (lg.write_to_sinks heap entry LogLevel.ERROR).calls = List.range lg.sinks_.length ∧
      heap_gains heap (lg.write_to_sinks heap entry LogLevel.ERROR).heap
        (fun j => lg.sinks_.count (some j)) entry) := by
  have main : ∀ lvl : LogLevel, lg.level_.toNat ≤ lvl.toNat →
      (∀ p ∈ lg.sinks_, points_to_accepting heap p = true) →
      (lg.write_to_sinks heap entry lvl).ending = LoopEnd.returned ∧
      (lg.write_to_sinks heap entry lvl).calls = List.range lg.sinks_.length ∧
      heap_gains heap (lg.write_to_sinks heap entry lvl).heap
        (fun j => lg.sinks_.count (some j)) entry := by
    intro lvl h hacc
    have := write_loop_all_accept lg.level_ lvl entry 0 lg.sinks_ heap h
      (fun p hp => (points_to_accepting_iff heap p).1 (hacc p hp))
    simpa [Logger.write_to_sinks, List.range_eq_range'] using this
  refine ⟨fun h => write_loop_below _ _ _ _ _ _ h, ?_, fun _ _ _ _ => rfl, ?_, ?_⟩
  · intro h hacc
    obtain ⟨h1, h2, h3⟩ := main level h hacc
    refine ⟨h1, h2, h3, ?_, ?_⟩
    · intro j sink hj
      exact ⟨_, h3.2 j sink hj, written_with_output _ _⟩
    · intro hnd j sink hmem hj
      refine ⟨_, h3.2 j sink hj, ?_⟩
      rw [written_with_output]
      show sink.written ++ List.replicate (List.count (some j) lg.sinks_) entry = _
      rw [count_of_mem_nodup (some j) lg.sinks_ hnd hmem]
      rfl
  · intro hw
    exact write_loop_below _ _ _ _ _ _ (by rw [hw]; decide)
  · intro hw hacc
    exact (main LogLevel.ERROR (by rw [hw]; decide) hacc).2

/-- C7 (amended) at threshold WARNING with a console sink and a file sink, each
registered once: an ERROR record reaches both, in order, once each. -/
theorem C7_level_filter_and_fan_out_witness :
    ((Logger.mk [some 0, some 1] LogLevel.WARNING).write_to_sinks
        [base_sink.ansicolor_sink (FILE.mk [] true),
         base_sink.file_sink "log.txt" (file_helper.mk ["old"] true)]
        "line" LogLevel.ERROR).calls = List.range 2 ∧
    ∃ sink1, ((Logger.mk [some 0, some 1] LogLevel.WARNING).write_to_sinks
        [base_sink.ansicolor_sink (FILE.mk [] true),
         base_sink.file_sink "log.txt" (file_helper.mk ["old"] true)]
        "line" LogLevel.ERROR).heap[1]? = some sink1 ∧
      sink1.written = ["old"] ++ ["line"] :=
  ⟨((C7_level_filter_and_fan_out (Logger.mk [some 0, some 1] LogLevel.WARNING)
      [base_sink.ansicolor_sink (FILE.mk [] true),
       base_sink.file_sink "log.txt" (file_helper.mk ["old"] true)]
      "line" LogLevel.ERROR).2.1 (by decide) (by decide)).2.1,
    ((C7_level_filter_and_fan_out (Logger.mk [some 0, some 1] LogLevel.WARNING)
      [base_sink.ansicolor_sink (FILE.mk [] true),
       base_sink.file_sink "log.txt" (file_helper.mk ["old"] true)]
      "line" LogLevel.ERROR).2.1 (by decide) (by decide)).2.2.2.2 (by decide) 1
      (base_sink.file_sink "log.txt" (file_helper.mk ["old"] true)) (by decide) rfl⟩

/-- C7 as stated fails on three sink lists, threshold WARNING and an ERROR
record each time. A sink that throws: of three registered sinks the second is
a console sink on a stream that does not take writes; `log` is called on the
first two only and the third, a file sink with an open file, is never passed
the line. A sink registered twice: the one file sink is passed the line twice.
A null pointer registered: the loop calls `log` through it. -/
theorem C7_every_sink_once_counterexample :
    (Logger.mk [some 0, some 1, some 2] LogLevel.WARNING).write_to_sinks
        [base_sink.ansicolor_sink (FILE.mk [] true),
         base_sink.ansicolor_sink (FILE.mk [] false),
         base_sink.file_sink "log.txt" (file_helper.mk [] true)]
        "line" LogLevel.ERROR
      = { heap := [base_sink.ansicolor_sink (FILE.mk ["line"] true),
                   base_sink.ansicolor_sink (FILE.mk [] false),
                   base_sink.file_sink "log.txt" (file_helper.mk [] true)],
          calls := [0, 1],
          ending := LoopEnd.thrown "cannot write to file" } ∧
    (Logger.mk [some 0, some 0] LogLevel.WARNING).write_to_sinks
        [base_sink.file_sink "log.txt" (file_helper.mk [] true)] "line" LogLevel.ERROR
      = { heap := [base_sink.file_sink "log.txt" (file_helper.mk ["line", "line"] true)],
          calls := [0, 1],
          ending := LoopEnd.returned } ∧
    (Logger.mk [none] LogLevel.WARNING).write_to_sinks
        [base_sink.file_sink "log.txt" (file_helper.mk [] true)] "line" LogLevel.ERROR
      = { heap := [base_sink.file_sink "log.txt" (file_helper.mk [] true)],
          calls := [],
          ending := LoopEnd.undefined } := by
  refine ⟨by rfl, by rfl, by rfl⟩

/-! ## Theorems: AsyncLogger -/

/-- On a fresh `AsyncLogger` the call of `log` queues the captures and returns;
the worker iteration that follows runs the queued lambda against the threshold
and the clock of that moment. -/
theorem log_then_run_fresh (env : Env) (now_call now_exec : Nat) (heap : List base_sink)
    (sinks : List (Option Nat)) (t1 t2 level : LogLevel) (format : String)
    (args : List String) :
    AsyncLogger.log now_call (AsyncLogger.fresh sinks t1) level format args
      = (EnqueueOutcome.accepted,
          { sinks_ := sinks, level_ := t1,
            log_pool := { tasks := [{ level := level, format := format, args := args }],
                          stop := false, maxQueueSize := 1000,
                          overflow_policy := async_overflow_policy.block } }) ∧
    AsyncLogger.log_then_run env now_call now_exec heap (AsyncLogger.fresh sinks t1) t2 level
        format args
      = (EnqueueOutcome.accepted,
          some (write_loop t2 level (log_entry env now_exec level format args) 0 sinks heap),
          { sinks_ := sinks, level_ := t2,
            log_pool := ThreadPool.init 1000 async_overflow_policy.block }) := by
  constructor
  · simp [AsyncLogger.log, AsyncLogger.fresh, ThreadPool.enqueue, ThreadPool.init]
  · simp [AsyncLogger.log_then_run, AsyncLogger.log, AsyncLogger.fresh, ThreadPool.enqueue,
      ThreadPool.init, AsyncLogger.set_level, AsyncLogger.worker_iteration,
      ThreadPool.worker_step, LogTask.run, Logger.write_to_sinks, AsyncLogger.toLogger]

/-- A heap in which some registered sink has gained at least one line is not
the heap before. -/
theorem heap_gains_ne (heap after : List base_sink) (cnt : Nat → Nat) (entry : String)
    (j : Nat) (sink : base_sink) (hj : heap[j]? = some sink) (hc : 0 < cnt j)
    (hg : heap_gains heap after cnt entry) : after ≠ heap := by
  intro heq
  have h1 := hg.2 j sink hj
  rw [heq, hj] at h1
  have h2 : sink.written = (sink.with_output (List.replicate (cnt j) entry)).written := by
    rw [← Option.some.inj h1]
  rw [written_with_output] at h2
  have h3 := congrArg List.length h2
  simp only [List.length_append, List.length_replicate] at h3
  omega

/-- C8 (amended): the lambda queued by `AsyncLogger::log` holds the level, the
format and the arguments, no threshold; for every record level `l`, threshold
`t1` at the call and threshold `t2` when a worker runs the lambda, the
delivery made is that of `write_to_sinks` under `t2`, and for `l < t2` no sink
is called and every sink is as it was. When every registered pointer points
to a sink and the target of each takes the write, for `l >= t2` every sink
object has got the line once per registration; and when moreover at least one
sink is registered, the record is written to the sinks if and only if
`l >= t2`. -/
theorem C8_filter_uses_threshold_at_execution (env : Env) (now_call now_exec : Nat)
    (heap : List base_sink) (sinks : List (Option Nat)) (t1 t2 l : LogLevel)
    (format : String) (args : List String) :
    (AsyncLogger.log_then_run env now_call now_exec heap (AsyncLogger.fresh sinks t1) t2 l
        format args).1 = EnqueueOutcome.accepted ∧
    (AsyncLogger.log now_call (AsyncLogger.fresh sinks t1) l format args).2.log_pool.tasks
      = [{ level := l, format := format, args := args }] ∧
    (AsyncLogger.log_then_run env now_call now_exec heap (AsyncLogger.fresh sinks t1) t2 l
        format args).2.1
      = some ((Logger.mk sinks t2).write_to_sinks heap
          (log_entry env now_exec l format args) l) ∧
    (l.toNat < t2.toNat →
      (AsyncLogger.log_then_run env now_call now_exec heap (AsyncLogger.fresh sinks t1) t2 l
          format args).2.1
        = some { heap := heap, calls := [], ending := LoopEnd.returned }) ∧
    ((∀ p ∈ sinks, points_to_accepting heap p = true) → t2.toNat ≤ l.toNat →
      ∃ d, (AsyncLogger.log_then_run env now_call now_exec heap (AsyncLogger.fresh sinks t1)
          t2 l format args).2.1 = some d ∧
        d.ending = LoopEnd.returned ∧ d.calls = List.range sinks.length ∧
        heap_gains heap d.heap (fun j => sinks.count (some j))
          (log_entry env now_exec l format args)) ∧
    (sinks ≠ [] → (∀ p ∈ sinks, points_to_accepting heap p = true) →
      ((∃ d, (AsyncLogger.log_then_run env now_call now_exec heap (AsyncLogger.fresh sinks t1)
          t2 l format args).2.1 = some d ∧ d.heap ≠ heap ∧
          heap_gains heap d.heap (fun j => sinks.count (some j))
            (log_entry env now_exec l format args)) ↔ t2.toNat ≤ l.toNat)) := by
  obtain ⟨hlog, hrun⟩ := log_then_run_fresh env now_call now_exec heap sinks t1 t2 l format args
  rw [hrun, hlog]
  have hpos : (∀ p ∈ sinks, points_to_accepting heap p = true) → t2.toNat ≤ l.toNat →
      (write_loop t2 l (log_entry env now_exec l format args) 0 sinks heap).ending
        = LoopEnd.returned ∧
      (write_loop t2 l (log_entry env now_exec l format args) 0 sinks heap).calls
        = List.range sinks.length ∧
      heap_gains heap (write_loop t2 l (log_entry env now_exec l format args) 0 sinks heap).heap
        (fun j => sinks.count (some j)) (log_entry env now_exec l format args) := by
    intro hacc h
    have := write_loop_all_accept t2 l (log_entry env now_exec l format args) 0 sinks heap h
      (fun p hp => (points_to_accepting_iff heap p).1 (hacc p hp))
    simpa [List.range_eq_range'] using this
  refine ⟨rfl, rfl, rfl, ?_, ?_, ?_⟩
  · intro h
    simp [write_loop_below t2 l _ 0 sinks heap h]
  · intro hacc h
    exact ⟨_, rfl, hpos hacc h⟩
  · intro hne hacc
    constructor
    · rintro ⟨d, hd, hheap, _⟩
      by_contra hlt
      have hlt1 : l.toNat < t2.toNat := by omega
      simp only [Option.some.injEq] at hd
      rw [write_loop_below t2 l _ 0 sinks heap hlt1] at hd
      subst hd
      exact hheap rfl
    · intro h
      refine ⟨_, rfl, ?_, (hpos hacc h).2.2⟩
      cases sinks with
      | nil => exact absurd rfl hne
      | cons p rest =>
        obtain ⟨j, sink, hp, hj, _⟩ :=
          (points_to_accepting_iff heap p).1 (hacc p (List.mem_cons_self _ _))
        subst hp
        exact heap_gains_ne heap _ _ _ j sink hj (by simp) (hpos hacc h).2.2

/-- C8 (amended) at a concrete input: an INFO record is logged while the
threshold is INFO; the threshold is WARNING when the lambda runs, and nothing
is written. A WARNING record logged while the threshold is ERROR is written
when the threshold has become INFO by the time the lambda runs. -/
theorem C8_filter_uses_threshold_at_execution_witness :
    (AsyncLogger.log_then_run (Env.mk (fun _ => "Mon\n") (fun f _ => f)) 1 2
        [base_sink.ansicolor_sink (FILE.mk [] true)]
        (AsyncLogger.fresh [some 0] LogLevel.INFO)
        LogLevel.WARNING LogLevel.INFO "msg" []).2.1
      = some { heap := [base_sink.ansicolor_sink (FILE.mk [] true)], calls := [],
               ending := LoopEnd.returned } ∧
    ∃ d, (AsyncLogger.log_then_run (Env.mk (fun _ => "Mon\n") (fun f _ => f)) 1 2
        [base_sink.ansicolor_sink (FILE.mk [] true)]
        (AsyncLogger.fresh [some 0] LogLevel.ERROR)
        LogLevel.INFO LogLevel.WARNING "msg" []).2.1 = some d ∧
      d.heap ≠ [base_sink.ansicolor_sink (FILE.mk [] true)] ∧
      heap_gains [base_sink.ansicolor_sink (FILE.mk [] true)] d.heap
        (fun j => [some 0].count (some j))
        (log_entry (Env.mk (fun _ => "Mon\n") (fun f _ => f)) 2 LogLevel.WARNING "msg" []) :=
  ⟨(C8_filter_uses_threshold_at_execution (Env.mk (fun _ => "Mon\n") (fun f _ => f)) 1 2
      [base_sink.ansicolor_sink (FILE.mk [] true)] [some 0] LogLevel.INFO LogLevel.WARNING
      LogLevel.INFO "msg" []).2.2.2.1 (by decide),
    ((C8_filter_uses_threshold_at_execution (Env.mk (fun _ => "Mon\n") (fun f _ => f)) 1 2
      [base_sink.ansicolor_sink (FILE.mk [] true)] [some 0] LogLevel.ERROR LogLevel.INFO
      LogLevel.WARNING "msg" []).2.2.2.2.2 (by decide) (by decide)).2 (by decide)⟩

/-- C8 as stated fails: an ERROR record is logged and run while the threshold
is INFO, so `l >= t2`. With one registered console sink on a stream that does
not take writes, the unit is accepted and run, `log` throws and nothing is
written. With no sink registered, the unit is accepted and run and nothing is
written to the one sink there is. -/
theorem C8_written_iff_counterexample :
    AsyncLogger.log_then_run (Env.mk (fun _ => "Mon\n") (fun f _ => f)) 1 2
        [base_sink.ansicolor_sink (FILE.mk [] false)]
        (AsyncLogger.fresh [some 0] LogLevel.INFO)
        LogLevel.INFO LogLevel.ERROR "msg" []
      = (EnqueueOutcome.accepted,
          some { heap := [base_sink.ansicolor_sink (FILE.mk [] false)], calls := [0],
                 ending := LoopEnd.thrown "cannot write to file" },
          AsyncLogger.fresh [some 0] LogLevel.INFO) ∧
    AsyncLogger.log_then_run (Env.mk (fun _ => "Mon\n") (fun f _ => f)) 1 2
        [base_sink.ansicolor_sink (FILE.mk [] true)]
        (AsyncLogger.fresh [] LogLevel.INFO)
        LogLevel.INFO LogLevel.ERROR "msg" []
      = (EnqueueOutcome.accepted,
          some { heap := [base_sink.ansicolor_sink (FILE.mk [] true)], calls := [],
                 ending := LoopEnd.returned },
          AsyncLogger.fresh [] LogLevel.INFO) := by
  refine ⟨by rfl, by rfl⟩

/-- C9 (amended): `AsyncLogger::log` reads no clock and formats nothing: what it
queues is the level, the format string and the arguments, the same whatever
the clock reads at the call. The timestamp is read and the line is formatted
when a worker runs the lambda, so the line written to the sinks carries the
clock value `now_exec` of the execution, whatever `now_call` was. -/
theorem C9_timestamp_read_at_execution (env : Env) (now_call now_exec : Nat)
    (heap : List base_sink) (sinks : List (Option Nat)) (t l : LogLevel) (format : String)
    (args : List String) (hl : t.toNat ≤ l.toNat)
    (hacc : ∀ p ∈ sinks, points_to_accepting heap p = true) :
    (∀ n : Nat, AsyncLogger.log n (AsyncLogger.fresh sinks t) l format args
      = AsyncLogger.log now_call (AsyncLogger.fresh sinks t) l format args) ∧
    (AsyncLogger.log now_call (AsyncLogger.fresh sinks t) l format args).2.log_pool.tasks
      = [{ level := l, format := format, args := args }] ∧
    (AsyncLogger.log_then_run env now_call now_exec heap (AsyncLogger.fresh sinks t) t l
        format args).2.1
      = some ((Logger.mk sinks t).write_to_sinks heap
          (log_entry env now_exec l format args) l) ∧
    ∃ d, (AsyncLogger.log_then_run env now_call now_exec heap (AsyncLogger.fresh sinks t) t l
        format args).2.1 = some d ∧
      d.ending = LoopEnd.returned ∧
      heap_gains heap d.heap (fun j => sinks.count (some j))
        (log_entry env now_exec l format args) ∧
      ∀ j sink, heap[j]? = some sink →
        ∃ sink1, d.heap[j]? = some sink1 ∧
          sink1.written = sink.written
            ++ List.replicate (sinks.count (some j)) (log_entry env now_exec l format args) := by
  obtain ⟨hlog, hrun⟩ := log_then_run_fresh env now_call now_exec heap sinks t t l format args
  rw [hrun, hlog]
  have h := write_loop_all_accept t l (log_entry env now_exec l format args) 0 sinks heap hl
    (fun p hp => (points_to_accepting_iff heap p).1 (hacc p hp))
  exact ⟨fun _ => rfl, rfl, rfl, _, rfl, h.1, h.2.2,
    fun j sink hj => ⟨_, h.2.2.2 j sink hj, written_with_output _ _⟩⟩

/-- C9 (amended) at a concrete input: the clock reads Mon at the call and Tue at
the execution; the line written starts with Tue. -/
theorem C9_timestamp_read_at_execution_witness :
    ∃ d, (AsyncLogger.log_then_run
        (Env.mk (fun n => if n = 1 then "Mon\n" else "Tue\n") (fun f _ => f)) 1 2
        [base_sink.ansicolor_sink (FILE.mk [] true)]
        (AsyncLogger.fresh [some 0] LogLevel.INFO)
        LogLevel.INFO LogLevel.INFO "msg" []).2.1 = some d ∧
      d.ending = LoopEnd.returned ∧
      heap_gains [base_sink.ansicolor_sink (FILE.mk [] true)] d.heap
        (fun j => [some 0].count (some j))
        (log_entry (Env.mk (fun n => if n = 1 then "Mon\n" else "Tue\n") (fun f _ => f))
          2 LogLevel.INFO "msg" []) :=
  match (C9_timestamp_read_at_execution
    (Env.mk (fun n => if n = 1 then "Mon\n" else "Tue\n") (fun f _ => f)) 1 2
    [base_sink.ansicolor_sink (FILE.mk [] true)] [some 0] LogLevel.INFO LogLevel.INFO "msg" []
    (by decide) (by decide)).2.2.2 with
  | ⟨d, h1, h2, h3, _⟩ => ⟨d, h1, h2, h3⟩

/-- C9 as stated fails: `log` is called when the clock reads 1 (Mon), the
worker runs the lambda when it reads 2 (Tue); the line written to the sink is
the one formatted from the clock value 2, not the one of the call. -/
theorem C9_call_time_timestamp_counterexample :
    (AsyncLogger.log_then_run
        (Env.mk (fun n => if n = 1 then "Mon\n" else "Tue\n") (fun f _ => f)) 1 2
        [base_sink.ansicolor_sink (FILE.mk [] true)]
        (AsyncLogger.fresh [some 0] LogLevel.INFO)
        LogLevel.INFO LogLevel.INFO "msg" []).2.1
      = some { heap := [base_sink.ansicolor_sink (FILE.mk ["[Tue] [INFO] msg\n"] true)],
               calls := [0], ending := LoopEnd.returned } ∧
    log_entry (Env.mk (fun n => if n = 1 then "Mon\n" else "Tue\n") (fun f _ => f))
        1 LogLevel.INFO "msg" [] = "[Mon] [INFO] msg\n" ∧
    (AsyncLogger.log_then_run
        (Env.mk (fun n => if n = 1 then "Mon\n" else "Tue\n") (fun f _ => f)) 1 2
        [base_sink.ansicolor_sink (FILE.mk [] true)]
        (AsyncLogger.fresh [some 0] LogLevel.INFO)
        LogLevel.INFO LogLevel.INFO "msg" []).2.1
      ≠ some { heap := [base_sink.ansicolor_sink (FILE.mk
                 [log_entry (Env.mk (fun n => if n = 1 then "Mon\n" else "Tue\n")
                   (fun f _ => f)) 1 LogLevel.INFO "msg" []] true)],
               calls := [0], ending := LoopEnd.returned } := by
  refine ⟨by rfl, by rfl, by decide⟩

/-- C10 (amended): for every sink list and every record that passes the level
filter, if the first failing write is the one at position `pre.length` (the
pointers before it point to sinks that take the write, the pointer there to a
sink that does not), then the sinks before it have got the line (once per
registration before that position), `log` is called on the failing sink, no
write is attempted at any later position, the failing sink and every sink
registered only after it are unchanged, and the exception leaves
`Logger::write_to_sinks` (and with it `Logger::log`). -/
theorem C10_sink_failure_stops_fan_out (lg : Logger) (heap : List base_sink) (entry : String)
    (level : LogLevel) (pre post : List (Option Nat)) (jb : Nat) (bad : base_sink)
    (hsinks : lg.sinks_ = pre ++ some jb :: post)
    (hlevel : lg.level_.toNat ≤ level.toNat)
    (hpre : ∀ p ∈ pre, points_to_accepting heap p = true)
    (hb : heap[jb]? = some bad) (hbad : bad.accepts = false) :
    (∃ e, bad.log entry = Except.error e ∧
      (lg.write_to_sinks heap entry level).ending = LoopEnd.thrown e) ∧
    (lg.write_to_sinks heap entry level).calls = List.range (pre.length + 1) ∧
    heap_gains heap (lg.write_to_sinks heap entry level).heap
      (fun j => pre.count (some j)) entry ∧
    (∀ j sink, heap[j]? = some sink →
      ∃ sink1, (lg.write_to_sinks heap entry level).heap[j]? = some sink1 ∧
        sink1.written = sink.written ++ List.replicate (pre.count (some j)) entry) ∧
    (lg.write_to_sinks heap entry level).heap[jb]? = some bad ∧
    (∀ j sink, some j ∉ pre → heap[j]? = some sink →
      (lg.write_to_sinks heap entry level).heap[j]? = some sink) ∧
    (∀ (env : Env) (now : Nat) (format : String) (args : List String),
      entry = log_entry env now level format args →
      (Logger.log env now lg heap level format args).ending
        = (lg.write_to_sinks heap entry level).ending) := by
  have h := write_loop_first_failure lg.level_ level entry 0 pre post jb bad heap hlevel
    (fun p hp => (points_to_accepting_iff heap p).1 (hpre p hp)) hb hbad
  have hkeep : ∀ j sink, some j ∉ pre → heap[j]? = some sink →
      (write_loop lg.level_ level entry 0 (pre ++ some jb :: post) heap).heap[j]?
        = some sink := by
    intro j sink hnot hj
    have h1 := h.2.2.2 j sink hj
    have h0 : pre.count (some j) = 0 := List.count_eq_zero.2 hnot
    rw [h1]
    show some (sink.with_output (List.replicate (pre.count (some j)) entry)) = _
    rw [h0]
    simp [with_output_nil]
  have hnotbad : some jb ∉ pre := by
    intro hmem
    obtain ⟨j, sink, hj, hget, hacc⟩ := (points_to_accepting_iff heap _).1 (hpre _ hmem)
    cases hj
    rw [hb] at hget
    cases hget
    rw [hbad] at hacc
    cases hacc
  unfold Logger.write_to_sinks
  rw [hsinks]
  refine ⟨h.1, ?_, h.2.2, ?_, hkeep jb bad hnotbad hb, hkeep, ?_⟩
  · rw [h.2.1, List.range_eq_range']
  · intro j sink hj
    exact ⟨_, h.2.2.2 j sink hj, written_with_output _ _⟩
  · intro env now format args he
    simp only [Logger.log, Logger.write_to_sinks, hsinks, he]

/-- C10 (amended) at a concrete input: a file sink whose helper is not open is
registered between two console sinks. -/
theorem C10_sink_failure_stops_fan_out_witness :
    ((Logger.mk [some 0, some 1, some 2] LogLevel.INFO).write_to_sinks
        [base_sink.ansicolor_sink (FILE.mk [] true),
         base_sink.file_sink "log.txt" (file_helper.mk [] false),
         base_sink.ansicolor_sink (FILE.mk [] true)]
        "line" LogLevel.ERROR).calls = List.range (1 + 1) ∧
    ((Logger.mk [some 0, some 1, some 2] LogLevel.INFO).write_to_sinks
        [base_sink.ansicolor_sink (FILE.mk [] true),
         base_sink.file_sink "log.txt" (file_helper.mk [] false),
         base_sink.ansicolor_sink (FILE.mk [] true)]
        "line" LogLevel.ERROR).heap[2]? = some (base_sink.ansicolor_sink (FILE.mk [] true)) :=
  ⟨(C10_sink_failure_stops_fan_out (Logger.mk [some 0, some 1, some 2] LogLevel.INFO)
      [base_sink.ansicolor_sink (FILE.mk [] true),
       base_sink.file_sink "log.txt" (file_helper.mk [] false),
       base_sink.ansicolor_sink (FILE.mk [] true)]
      "line" LogLevel.ERROR [some 0] [some 2] 1
      (base_sink.file_sink "log.txt" (file_helper.mk [] false))
      rfl (by decide) (by decide) rfl rfl).2.1,
    (C10_sink_failure_stops_fan_out (Logger.mk [some 0, some 1, some 2] LogLevel.INFO)
      [base_sink.ansicolor_sink (FILE.mk [] true),
       base_sink.file_sink "log.txt" (file_helper.mk [] false),
       base_sink.ansicolor_sink (FILE.mk [] true)]
      "line" LogLevel.ERROR [some 0] [some 2] 1
      (base_sink.file_sink "log.txt" (file_helper.mk [] false))
      rfl (by decide) (by decide) rfl rfl).2.2.2.2.2.1 2
      (base_sink.ansicolor_sink (FILE.mk [] true)) (by decide) rfl⟩

/-- C10 as stated fails: the record passes the filter and the write to the
sink at position 0 throws (a console sink on a stream that does not take
writes, and likewise a file sink whose helper is not open); the write is not
attempted on the sink at position 1, which stays empty, and the exception
leaves `write_to_sinks`. -/
theorem C10_no_isolation_counterexample :
    (Logger.mk [some 0, some 1] LogLevel.INFO).write_to_sinks
        [base_sink.ansicolor_sink (FILE.mk [] false),
         base_sink.file_sink "log.txt" (file_helper.mk [] true)]
        "line" LogLevel.ERROR
      = { heap := [base_sink.ansicolor_sink (FILE.mk [] false),
                   base_sink.file_sink "log.txt" (file_helper.mk [] true)],
          calls := [0],
          ending := LoopEnd.thrown "cannot write to file" } ∧
    (Logger.mk [some 0, some 1] LogLevel.INFO).write_to_sinks
        [base_sink.file_sink "log.txt" (file_helper.mk [] false),
         base_sink.ansicolor_sink (FILE.mk [] true)]
        "line" LogLevel.ERROR
      = { heap := [base_sink.file_sink "log.txt" (file_helper.mk [] false),
                   base_sink.ansicolor_sink (FILE.mk [] true)],
          calls := [0],
          ending := LoopEnd.thrown "文件未打开" } := by
  refine ⟨by rfl, by rfl⟩

/-! ## Theorems: shutdown -/

/-- C11, the failing input: `AsyncLogger::shutdown` of 4.cpp has an empty body,
so it returns the logger as it found it. Two records are logged on a fresh
logger with one console sink before any worker has run; both are accepted;
when `shutdown()` returns the queue still holds both and the sink has got
nothing: the first record only reaches it in the worker iteration after that.
In 1.cpp `shutdown()` closes the log file at once: a record accepted before is
run afterwards against the closed stream and never reaches the file. -/
theorem C11_shutdown_returns_before_drain :
    (∀ a : AsyncLogger, a.shutdown = a) ∧
    (AsyncLogger.log 1 (AsyncLogger.fresh [some 0] LogLevel.INFO)
        LogLevel.INFO "a" []).1 = EnqueueOutcome.accepted ∧
    (AsyncLogger.log 1 (AsyncLogger.log 1 (AsyncLogger.fresh [some 0] LogLevel.INFO)
        LogLevel.INFO "a" []).2 LogLevel.ERROR "b" []).1 = EnqueueOutcome.accepted ∧
    (AsyncLogger.log 1 (AsyncLogger.log 1 (AsyncLogger.fresh [some 0] LogLevel.INFO)
        LogLevel.INFO "a" []).2 LogLevel.ERROR "b" []).2.shutdown.log_pool.tasks
      = [LogTask.mk LogLevel.INFO "a" [], LogTask.mk LogLevel.ERROR "b" []] ∧
    ((AsyncLogger.log 1 (AsyncLogger.log 1 (AsyncLogger.fresh [some 0] LogLevel.INFO)
        LogLevel.INFO "a" []).2 LogLevel.ERROR "b" []).2.shutdown.worker_iteration
        (Env.mk (fun _ => "Mon\n") (fun f _ => f)) 2
        [base_sink.ansicolor_sink (FILE.mk [] true)]).1
      = some { heap := [base_sink.ansicolor_sink (FILE.mk ["[Mon] [INFO] a\n"] true)],
               calls := [0], ending := LoopEnd.returned } ∧
    (Module1.Logger.log
        (Module1.Logger.mk (ofstream.mk true [])
          (ThreadPool.init 1000 async_overflow_policy.block))
        LogLevel.INFO "a" []).1 = EnqueueOutcome.accepted ∧
    Module1.Logger.worker_iteration (Env.mk (fun _ => "Mon\n") (fun f _ => f)) 2
        (Module1.Logger.log
          (Module1.Logger.mk (ofstream.mk true [])
            (ThreadPool.init 1000 async_overflow_policy.block))
          LogLevel.INFO "a" []).2.shutdown
      = Module1.Logger.mk (ofstream.mk false [])
          (ThreadPool.init 1000 async_overflow_policy.block) := by
  refine ⟨fun _ => rfl, by rfl, by rfl, by rfl, by rfl, by rfl, by rfl⟩

/-- C12, the failing input: since `AsyncLogger::shutdown` changes nothing, a
`log` call after it behaves as one before it. On a fresh logger with one
console sink, after `shutdown()` the flag `stop` of the pool is still clear,
the `log` call is accepted and its unit is in the queue, and the next worker
iteration writes the line to the sink. -/
theorem C12_log_after_shutdown_is_accepted :
    (∀ (now : Nat) (a : AsyncLogger) (level : LogLevel) (format : String) (args : List String),
      AsyncLogger.log now a.shutdown level format args
        = AsyncLogger.log now a level format args) ∧
    (AsyncLogger.fresh [some 0] LogLevel.INFO).shutdown.log_pool.stop = false ∧
    AsyncLogger.log 1 (AsyncLogger.fresh [some 0] LogLevel.INFO).shutdown
        LogLevel.ERROR "late" []
      = (EnqueueOutcome.accepted,
          AsyncLogger.mk [some 0] LogLevel.INFO
            (ThreadPool.mk [LogTask.mk LogLevel.ERROR "late" []] false 1000
              async_overflow_policy.block)) ∧
    ((AsyncLogger.log 1 (AsyncLogger.fresh [some 0] LogLevel.INFO).shutdown
        LogLevel.ERROR "late" []).2.worker_iteration
        (Env.mk (fun _ => "Mon\n") (fun f _ => f)) 2
        [base_sink.ansicolor_sink (FILE.mk [] true)]).1
      = some { heap := [base_sink.ansicolor_sink (FILE.mk ["[Mon] [ERROR] late\n"] true)],
               calls := [0], ending := LoopEnd.returned } := by
  refine ⟨fun _ _ _ _ _ => rfl, by rfl, by rfl, by rfl⟩

/-! ## Theorems: constructing a `file_sink` -/

/-- Method `open` throws exactly when the stream is not open after the library call. -/
theorem open_error_iff (fs : FileSystem) (h : file_helper) (filename : String)
    (truncate : Bool) :
    (∃ e, h.open fs filename truncate = Except.error e) ↔
      h.stream_is_open_after fs filename (file_helper.open_mode truncate) = false := by
  unfold file_helper.open
  cases hs : h.stream_is_open_after fs filename (file_helper.open_mode truncate) <;> simp [hs]

/-- When `open` returns, `is_open_` is set, the stream is open, and nothing else
of the helper has changed. -/
theorem open_ok (fs : FileSystem) (h h1 : file_helper) (filename : String) (truncate : Bool)
    (hok : h.open fs filename truncate = Except.ok h1) :
    h1.is_open_ = true ∧ h1.file_stream_ = h.file_stream_ ∧
    h.stream_is_open_after fs filename (file_helper.open_mode truncate) = true := by
  unfold file_helper.open at hok
  cases hs : h.stream_is_open_after fs filename (file_helper.open_mode truncate) with
  | false => simp [hs] at hok
  | true =>
    simp only [hs, Bool.not_true, Bool.false_eq_true, if_false, Except.ok.injEq] at hok
    subst hok
    exact ⟨rfl, rfl, rfl⟩

/-- A `file_sink` that its constructor returned takes every write: `log`
returns and the message is the one new item at the end of the file stream. -/
theorem file_sink_init_ok (fs : FileSystem) (filename : String) (sink : base_sink)
    (hok : file_sink.init fs filename = Except.ok sink) :
    sink = base_sink.file_sink filename { file_stream_ := [], is_open_ := true } ∧
    sink.accepts = true ∧
    ∀ msg, ∃ sink1, sink.log msg = Except.ok sink1 ∧ sink1.written = sink.written ++ [msg] := by
  unfold file_sink.init at hok
  cases hopen : file_helper.init.open fs filename false with
  | error e => simp [hopen] at hok
  | ok h1 =>
    obtain ⟨h2, h3, _⟩ := open_ok fs file_helper.init h1 filename false hopen
    simp only [hopen, Except.ok.injEq] at hok
    subst hok
    have hh : h1 = { file_stream_ := [], is_open_ := true } := by
      cases h1
      simp only [file_helper.init] at h3
      simp_all
    subst hh
    refine ⟨rfl, rfl, fun msg => ?_⟩
    obtain ⟨sink1, hl, hw, _⟩ :=
      log_of_accepts (base_sink.file_sink filename { file_stream_ := [], is_open_ := true })
        msg rfl
    exact ⟨sink1, hl, hw⟩

/-- C13: for every file system and file name, `file_helper::open` passes the
flags `out | app` to the stream, and `out | app | trunc` when truncation is
requested; the constructor of `file_sink` asks for no truncation. If the file
can be opened with `out | app` the constructor returns a sink with an open
helper whose `log` returns and appends the message; if it cannot, the
constructor throws; a sink it returns always takes writes. For every helper,
`open` throws if and only if the stream is not open after the library call
(for a helper that was closed: if and only if the file system refuses the
file), a returning `open` has set `is_open_`, and a throwing `open` leaves
`is_open_` clear. -/
theorem C13_file_sink_construction (fs : FileSystem) (filename : String) :
    (file_helper.open_mode false = { out := true, app := true, trunc := false } ∧
      file_helper.open_mode true = { out := true, app := true, trunc := true }) ∧
    (fs.can_open filename { out := true, app := true, trunc := false } = true →
      file_sink.init fs filename
        = Except.ok (base_sink.file_sink filename { file_stream_ := [], is_open_ := true })) ∧
    (fs.can_open filename { out := true, app := true, trunc := false } = false →
      file_sink.init fs filename = Except.error ("无法打开文件：" ++ filename)) ∧
    (∀ sink, file_sink.init fs filename = Except.ok sink →
      sink.accepts = true ∧
      ∀ msg, ∃ sink1, sink.log msg = Except.ok sink1 ∧
        sink1.written = sink.written ++ [msg]) ∧
    (∀ (h : file_helper) (truncate : Bool),
      ((∃ e, h.open fs filename truncate = Except.error e) ↔
        h.stream_is_open_after fs filename (file_helper.open_mode truncate) = false) ∧
      (h.is_open_ = false →
        ((∃ e, h.open fs filename truncate = Except.error e) ↔
          fs.can_open filename (file_helper.open_mode truncate) = false)) ∧
      (∀ h1, h.open fs filename truncate = Except.ok h1 →
        h1.is_open_ = true ∧
        h.stream_is_open_after fs filename (file_helper.open_mode truncate) = true) ∧
      (∀ e, h.open fs filename truncate = Except.error e → h.is_open_ = false)) := by
  refine ⟨⟨rfl, rfl⟩, ?_, ?_, ?_, ?_⟩
  · intro hc
    simp [file_sink.init, file_helper.open, file_helper.stream_is_open_after,
      file_helper.open_mode, file_helper.init, hc]
  · intro hc
    simp [file_sink.init, file_helper.open, file_helper.stream_is_open_after,
      file_helper.open_mode, file_helper.init, hc]
  · intro sink hok
    exact (file_sink_init_ok fs filename sink hok).2
  · intro h truncate
    refine ⟨open_error_iff fs h filename truncate, ?_, ?_, ?_⟩
    · intro hclosed
      rw [open_error_iff]
      simp [file_helper.stream_is_open_after, hclosed]
    · intro h1 hok
      obtain ⟨a, _, c⟩ := open_ok fs h h1 filename truncate hok
      exact ⟨a, c⟩
    · intro e he
      have := (open_error_iff fs h filename truncate).1 ⟨e, he⟩
      simp only [file_helper.stream_is_open_after, Bool.or_eq_false_iff] at this
      exact this.1

/-- C13 at a file system in which only "log.txt" can be opened, and only
without truncation: the sink on "log.txt" takes a write, the sink on
"/nodir/log.txt" is not constructed. -/
theorem C13_file_sink_construction_witness :
    file_sink.init (FileSystem.mk (fun name mode => name = "log.txt" && !mode.trunc)) "log.txt"
      = Except.ok (base_sink.file_sink "log.txt" { file_stream_ := [], is_open_ := true }) ∧
    file_sink.init (FileSystem.mk (fun name mode => name = "log.txt" && !mode.trunc))
        "/nodir/log.txt"
      = Except.error ("无法打开文件：" ++ "/nodir/log.txt") ∧
    ((∃ e, file_helper.init.open
        (FileSystem.mk (fun name mode => name = "log.txt" && !mode.trunc)) "log.txt" true
          = Except.error e) ↔
      (FileSystem.mk (fun name mode => name = "log.txt" && !mode.trunc)).can_open "log.txt"
        (file_helper.open_mode true) = false) :=
  ⟨(C13_file_sink_construction
      (FileSystem.mk (fun name mode => name = "log.txt" && !mode.trunc)) "log.txt").2.1
      (by decide),
    (C13_file_sink_construction
      (FileSystem.mk (fun name mode => name = "log.txt" && !mode.trunc)) "/nodir/log.txt").2.2.1
      (by decide),
    ((C13_file_sink_construction
      (FileSystem.mk (fun name mode => name = "log.txt" && !mode.trunc)) "log.txt").2.2.2.2
      file_helper.init true).2.1 rfl⟩

/-! ## Theorems: Registry -/

/-- After `m[name] = v` the key `name` is found with value `v`. -/
theorem umap_find_assign_same {V : Type} (name : String) (v : V) (l : List (String × V)) :
    umap_find name (umap_assign name v l) = some v := by
  induction l with
  | nil => simp [umap_assign, umap_find]
  | cons p rest ih =>
    obtain ⟨k, w⟩ := p
    by_cases hk : k = name
    · simp [umap_assign, umap_find, hk]
    · simp [umap_assign, umap_find, hk, ih]

/-- After `m[name] = v` every other key is found as before. -/
theorem umap_find_assign_other {V : Type} (name other : String) (v : V)
    (l : List (String × V)) (hne : other ≠ name) :
    umap_find other (umap_assign name v l) = umap_find other l := by
  induction l with
  | nil =>
    have : ¬ name = other := fun h => hne h.symm
    simp [umap_assign, umap_find, this]
  | cons p rest ih =>
    obtain ⟨k, w⟩ := p
    have hno : ¬ name = other := fun h => hne h.symm
    by_cases hk : k = name
    · subst hk
      simp [umap_assign, umap_find, hno]
    · by_cases hko : k = other
      · subst hko
        simp [umap_assign, umap_find, hne]
      · simp [umap_assign, umap_find, hk, hko, ih]

/-- Registrations under other names do not change what `getLogger(n)` returns. -/
theorem getLogger_register_all_other {ρ : Type} (n : String)
    (regs : List (String × Option ρ)) (r : Registry ρ) (hregs : ∀ p ∈ regs, p.1 ≠ n) :
    (r.register_all regs).getLogger n = r.getLogger n := by
  induction regs generalizing r with
  | nil => rfl
  | cons p rest ih =>
    obtain ⟨name, logger⟩ := p
    have hne : n ≠ name := fun h => hregs (name, logger) (List.mem_cons_self _ _) h.symm
    have hstep : (r.registerLogger name logger).getLogger n = r.getLogger n := by
      simp [Registry.getLogger, Registry.registerLogger,
        umap_find_assign_other name n logger r.loggers_ hne]
    simp only [Registry.register_all]
    rw [ih _ (fun q hq => hregs q (List.mem_cons_of_mem _ hq)), hstep]

/-- C14: for every registry state, names `n` and `m` and logger pointer `L`
(null included): after `registerLogger(n, L)`, `getLogger(n)` returns `L`,
also when `n` was registered before and after any later registrations under
other names, so the latest registration for a name wins; `getLogger(m)` for
`m != n` returns what it returned before; and on a registry built from the
empty one by registrations none of which used the name `n`, `getLogger(n)`
returns the null pointer. -/
theorem C14_registry_lookup {ρ : Type} (r : Registry ρ) (n m : String) (L : Option ρ) :
    (r.registerLogger n L).getLogger n = L ∧
    (∀ L0 : Option ρ, ((r.registerLogger n L0).registerLogger n L).getLogger n = L) ∧
    (∀ regs : List (String × Option ρ), (∀ p ∈ regs, p.1 ≠ n) →
      ((r.registerLogger n L).register_all regs).getLogger n = L) ∧
    (m ≠ n → (r.registerLogger n L).getLogger m = r.getLogger m) ∧
    (∀ regs : List (String × Option ρ), (∀ p ∈ regs, p.1 ≠ n) →
      ((Registry.init : Registry ρ).register_all regs).getLogger n = none) := by
  have hsame : ∀ (r0 : Registry ρ), (r0.registerLogger n L).getLogger n = L := by
    intro r0
    simp [Registry.getLogger, Registry.registerLogger, umap_find_assign_same]
  refine ⟨hsame r, fun L0 => hsame _, ?_, ?_, ?_⟩
  · intro regs hregs
    rw [getLogger_register_all_other n regs _ hregs]
    exact hsame r
  · intro hne
    simp [Registry.getLogger, Registry.registerLogger,
      umap_find_assign_other n m L r.loggers_ hne]
  · intro regs hregs
    rw [getLogger_register_all_other n regs _ hregs]
    rfl

/-- C14 at the registrations of `main`, followed by a second registration
under "async": logger 2 replaces logger 1, "sync" keeps logger 0, and "other"
was never registered. -/
theorem C14_registry_lookup_witness :
    ((((Registry.init : Registry Nat).registerLogger "sync" (some 0)).registerLogger
        "async" (some 1)).registerLogger "async" (some 2)).getLogger "async" = some 2 ∧
    ((((Registry.init : Registry Nat).registerLogger "sync" (some 0)).registerLogger
        "async" (some 1)).registerLogger "async" (some 2)).getLogger "sync"
      = (((Registry.init : Registry Nat).registerLogger "sync" (some 0)).registerLogger
        "async" (some 1)).getLogger "sync" ∧
    ((Registry.init : Registry Nat).register_all
        [("sync", some 0), ("async", some 1)]).getLogger "other" = none :=
  ⟨(C14_registry_lookup
      (((Registry.init : Registry Nat).registerLogger "sync" (some 0)).registerLogger
        "async" (some 1)) "async" "sync" (some 2)).1,
    (C14_registry_lookup
      (((Registry.init : Registry Nat).registerLogger "sync" (some 0)).registerLogger
        "async" (some 1)) "async" "sync" (some 2)).2.2.2.1 (by decide),
    (C14_registry_lookup (Registry.init : Registry Nat) "other" "sync" none).2.2.2.2
      [("sync", some 0), ("async", some 1)] (by decide)⟩

end SpdlogStudy
